import Mathlib

/-!
Verification development for the TinyCPP compiler front-end
(`cpp-compiler`): a shallow embedding, in Lean 4, of the lexer
(`src/Lexer.cpp`), the recursive-descent parser (`src/Parser.cpp`), the
semantic checker woven into the AST (`include/AST.hpp`,
`include/SymbolTable.hpp`), and the three-address-code generator
(`src/IRGenerator.cpp`), together with theorems about the pipeline
(`src/Compiler.cpp`).

Modelling conventions:
* C++ `std::string` becomes `String`; the scanner state (index, line,
  column) becomes the remaining character list plus line/column, so
  `currentChar()` is the head (or `'\0'` past the end, exactly like the
  C++ bounds check) and `advance()` drops the head.
* Functions that can `throw std::runtime_error` return `Except String`.
* Loops are modelled either by structural recursion on the character or
  token list, or with an explicit fuel parameter.  Fuel is always chosen
  so that it cannot run out on the real computation (the lexer consumes
  at least one character per emitted token, the parser consumes at least
  one token per two fuel units, the tree walks use `sizeOf`, which
  strictly dominates every recursive call); running out of fuel yields a
  distinguishable result, so a concrete evaluation that produces a
  normal result also certifies that the fuel sufficed for it.
-/

namespace TinyCPP

/-- Decidable equality for `Except`, so that concrete runs of the
fallible pipeline stages can be checked by `decide`. -/
instance {ε α : Type} [DecidableEq ε] [DecidableEq α] : DecidableEq (Except ε α) := fun a b =>
  match a, b with
  | .error x, .error y =>
    if h : x = y then .isTrue (by simp [h]) else .isFalse (by simp [h])
  | .error _, .ok _ => .isFalse (by simp)
  | .ok _, .error _ => .isFalse (by simp)
  | .ok x, .ok y =>
    if h : x = y then .isTrue (by simp [h]) else .isFalse (by simp [h])

/-- Token kinds, from `include/Token.hpp`, `enum class TokenType`. -/
inductive TokenType where
  | Identifier
  | Keyword
  | NumberLiteral
  | StringLiteral
  | CharacterLiteral
  | Operator
  | Separator
  | Comment
  | EndOfFile
  | Unknown
  | BooleanLiteral
  | NullLiteral
  | FloatingPointLiteral
deriving DecidableEq

/-- A token, from `include/Token.hpp`, `class Token`:
kind, lexeme, line, column. -/
structure Token where
  type : TokenType
  value : String
  line : Nat
  col : Nat
deriving DecidableEq

/-- The `'\0'` character that `Lexer::currentChar` returns past the end of
the buffer. -/
def nullChar : Char := Char.ofNat 0

/-- C locale `std::isspace` on ASCII input. -/
def isSpaceC (c : Char) : Bool :=
  c = ' ' || c = '\t' || c = '\n' || c = Char.ofNat 11 || c = Char.ofNat 12 || c = '\r'

/-- C locale `std::isdigit`. -/
def isDigitC (c : Char) : Bool :=
  '0' ≤ c && c ≤ '9'

/-- C locale `std::isalpha` on ASCII input. -/
def isAlphaC (c : Char) : Bool :=
  ('a' ≤ c && c ≤ 'z') || ('A' ≤ c && c ≤ 'Z')

/-- C locale `std::isalnum` on ASCII input. -/
def isAlnumC (c : Char) : Bool :=
  isAlphaC c || isDigitC c

/-- `Lexer::isOperator`: membership in `"+-*/%=<>!&|^~"`. -/
def isOpCharC (c : Char) : Bool :=
  c = '+' || c = '-' || c = '*' || c = '/' || c = '%' || c = '=' ||
  c = '<' || c = '>' || c = '!' || c = '&' || c = '|' || c = '^' || c = '~'

/-- Scanner state: remaining characters plus current line/column
(`Lexer`'s `index`/`line`/`column`, with `index` replaced by the
remaining suffix of the buffer). -/
structure LexState where
  chars : List Char
  line : Nat
  col : Nat
deriving DecidableEq

/-- `Lexer::currentChar`: head of the remaining buffer, `'\0'` at the end. -/
def curc (cs : List Char) : Char :=
  cs.headD nullChar

/-- `Lexer::advance` acting on `(chars, line, col)`. -/
def advT : List Char × Nat × Nat → List Char × Nat × Nat
  | ([], l, c) => ([], l, c)
  | (ch :: rest, l, c) => if ch = '\n' then (rest, l + 1, 1) else (rest, l, c + 1)

/-- `Lexer::skipWhitespace`. -/
def skipWS : List Char → Nat → Nat → List Char × Nat × Nat
  | [], l, c => ([], l, c)
  | ch :: rest, l, c =>
    if isSpaceC ch then
      if ch = '\n' then skipWS rest (l + 1) 1 else skipWS rest l (c + 1)
    else (ch :: rest, l, c)

/-- The `//`-comment loop of `Lexer::skipComment`: consume to the newline
(or to `'\0'`), then one further `advance()`. -/
def lineSkip : List Char → Nat → Nat → List Char × Nat × Nat
  | [], l, c => ([], l, c)
  | ch :: rest, l, c =>
    if ch = '\n' then (rest, l + 1, 1)
    else if ch = nullChar then (rest, l, c + 1)
    else lineSkip rest l (c + 1)

/-- The `/* ... */` loop of `Lexer::skipComment`: advance until `*/` is
the next two characters, breaking when `advance()` lands on `'\0'`. -/
def blockLoop : List Char → Nat → Nat → List Char × Nat × Nat
  | [], l, c => ([], l, c)
  | ch :: rest, l, c =>
    if ch = '*' && curc rest = '/' then (ch :: rest, l, c)
    else
      let l2 := if ch = '\n' then l + 1 else l
      let c2 := if ch = '\n' then 1 else c + 1
      if curc rest = nullChar then (rest, l2, c2) else blockLoop rest l2 c2

/-- `Lexer::skipComment`: at most one comment is skipped per call; the
trailing `advance(); advance();` of the block-comment case is applied
unconditionally after the loop. -/
def skipCommentM : List Char → Nat → Nat → List Char × Nat × Nat
  | '/' :: '/' :: rest, l, c => lineSkip ('/' :: '/' :: rest) l c
  | '/' :: '*' :: rest, l, c => advT (advT (blockLoop rest l (c + 2)))
  | cs, l, c => (cs, l, c)

/-- Result of a lexeme scanner: the lexeme built so far, the remaining
characters and the updated line/column. -/
structure ScanOut where
  lex : String
  rest : List Char
  line : Nat
  col : Nat
deriving DecidableEq

/-- `Lexer::number`: digits with at most one `'.'`; a second `'.'` ends
the token.  The Bool records `isFloatingPoint`. -/
def numScan : List Char → Nat → Nat → Bool → String → ScanOut × Bool
  | [], l, c, isF, acc => (⟨acc, [], l, c⟩, isF)
  | ch :: rest, l, c, isF, acc =>
    if isDigitC ch then numScan rest l (c + 1) isF (acc.push ch)
    else if ch = '.' then
      if isF then (⟨acc, ch :: rest, l, c⟩, isF)
      else numScan rest l (c + 1) true (acc.push '.')
    else (⟨acc, ch :: rest, l, c⟩, isF)

/-- The scanning loop of `Lexer::identifierOrKeyword`: consume
`[A-Za-z0-9_]`, absorbing an immediately following `::` after each
consumed character. -/
def identScan : List Char → Nat → Nat → String → ScanOut
  | [], l, c, acc => ⟨acc, [], l, c⟩
  | ch :: ':' :: ':' :: rest2, l, c, acc =>
    if isAlnumC ch || ch = '_' then identScan rest2 l (c + 3) ((acc.push ch) ++ "::")
    else ⟨acc, ch :: ':' :: ':' :: rest2, l, c⟩
  | ch :: rest, l, c, acc =>
    if isAlnumC ch || ch = '_' then identScan rest l (c + 1) (acc.push ch)
    else ⟨acc, ch :: rest, l, c⟩

/-- The keyword table of `Lexer::identifierOrKeyword`. -/
def classifyIdent (s : String) : TokenType :=
  if s = "true" || s = "false" then .BooleanLiteral
  else if s = "nullptr" then .NullLiteral
  else if s = "int" || s = "return" || s = "if" || s = "else" || s = "for" ||
          s = "while" || s = "float" || s = "char" || s = "std::string" then .Keyword
  else .Identifier

/-- The body loop of `Lexer::stringLiteral`, entered after the opening
quote was added: run to the closing quote or to `'\0'`; in both exit
cases `value += currentChar()` runs, so an unterminated string gets a
trailing `'\0'` character. -/
def strLoop : List Char → Nat → Nat → String → ScanOut
  | [], l, c, acc => ⟨acc.push nullChar, [], l, c⟩
  | '"' :: rest, l, c, acc => ⟨acc.push '"', rest, l, c + 1⟩
  | '\\' :: '"' :: rest2, l, c, acc => strLoop rest2 l (c + 2) ((acc.push '\\').push '"')
  | ch :: rest, l, c, acc =>
    if ch = nullChar then ⟨acc.push nullChar, rest, l, c + 1⟩
    else if ch = '\n' then strLoop rest (l + 1) 1 (acc.push ch)
    else strLoop rest l (c + 1) (acc.push ch)

/-- `Lexer::characterLiteral`, entered with the remaining characters
after the opening quote (already added to the lexeme by the caller).
Note that in the `\'` escape case only the backslash is added to the
lexeme: the escaped quote itself is skipped by the unconditional
`advance()` and never copied, so the source `'\''` yields the
three-character lexeme `'\` + quote. -/
def charRest (rest : List Char) (l c : Nat) : Except String (ScanOut) :=
  if curc rest = '\\' && curc rest.tail = '\'' then
    let s2 := advT (advT (rest, l, c))
    if curc s2.1 = '\'' then
      .ok ⟨(("'".push '\\').push '\''), (advT s2).1, (advT s2).2.1, (advT s2).2.2⟩
    else .error "Expected closing single quote for character literal"
  else
    let mid := curc rest
    let s2 := advT (rest, l, c)
    if curc s2.1 = '\'' then
      .ok ⟨(("'".push mid).push '\''), (advT s2).1, (advT s2).2.1, (advT s2).2.2⟩
    else .error "Expected closing single quote for character literal"

/-- `Lexer::operatorToken`: greedily consume operator characters; when
the lexeme so far is one of `=`, `!`, `<`, `>` and the next character is
`=`, absorb it and stop. -/
def opScan : List Char → Nat → Nat → String → ScanOut
  | [], l, c, acc => ⟨acc, [], l, c⟩
  | ch :: rest, l, c, acc =>
    if isOpCharC ch then
      let acc2 := acc.push ch
      if (acc2 = "=" || acc2 = "!" || acc2 = "<" || acc2 = ">") && curc rest = '=' then
        ⟨acc2.push '=', rest.tail, l, c + 2⟩
      else opScan rest l (c + 1) acc2
    else ⟨acc, ch :: rest, l, c⟩

/-- `Lexer::nextToken`: skip whitespace, skip one comment, then dispatch
on the current character in the source's order (digit, identifier,
string, character, operator, separator, end of buffer, unknown). -/
def nextToken (st : LexState) : Except String (Token × LexState) :=
  let w := skipWS st.chars st.line st.col
  let k := skipCommentM w.1 w.2.1 w.2.2
  let cs := k.1
  let l := k.2.1
  let c := k.2.2
  if isDigitC (curc cs) then
    let r := numScan cs l c false ""
    .ok (⟨if r.2 then .FloatingPointLiteral else .NumberLiteral, r.1.lex, r.1.line, c⟩,
         ⟨r.1.rest, r.1.line, r.1.col⟩)
  else if isAlphaC (curc cs) || curc cs = '_' then
    let r := identScan cs l c ""
    .ok (⟨classifyIdent r.lex, r.lex, r.line, c⟩, ⟨r.rest, r.line, r.col⟩)
  else
    match cs with
    | '"' :: rest =>
      let r := strLoop rest l (c + 1) (String.singleton '"')
      .ok (⟨.StringLiteral, r.lex, r.line, c⟩, ⟨r.rest, r.line, r.col⟩)
    | '\'' :: rest => do
      let r ← charRest rest l (c + 1)
      .ok (⟨.CharacterLiteral, r.lex, r.line, c⟩, ⟨r.rest, r.line, r.col⟩)
    | _ =>
      if isOpCharC (curc cs) then
        let r := opScan cs l c ""
        .ok (⟨.Operator, r.lex, r.line, c⟩, ⟨r.rest, r.line, r.col⟩)
      else if curc cs = ';' || curc cs = ',' || curc cs = '(' || curc cs = ')' ||
              curc cs = '\x7b' || curc cs = '\x7d' then
        let a := advT (cs, l, c)
        .ok (⟨.Separator, String.singleton (curc cs), l, c⟩, ⟨a.1, a.2.1, a.2.2⟩)
      else if curc cs = nullChar then
        .ok (⟨.EndOfFile, "", l, c⟩, ⟨cs, l, c⟩)
      else
        let a := advT (cs, l, c)
        .ok (⟨.Unknown, String.singleton (curc cs), a.2.1, a.2.2⟩, ⟨a.1, a.2.1, a.2.2⟩)

/-- The loop of `Lexer::tokenize`: while the index is inside the buffer,
take the next token, keep it unless it is `Unknown`, and stop after an
`EndOfFile` token. -/
def tokenizeLoop : Nat → LexState → Except String (List Token)
  | 0, _ => .error "LEXER OUT OF FUEL"
  | Nat.succ f, st =>
    match st.chars with
    | [] => .ok []
    | _ :: _ =>
      match nextToken st with
      | .error e => .error e
      | .ok (tok, st2) =>
        if tok.type = .EndOfFile then .ok [tok]
        else
          match tokenizeLoop f st2 with
          | .error e => .error e
          | .ok rest => .ok (if tok.type = .Unknown then rest else tok :: rest)

/-- `Lexer::tokenize` after `setSource`: each emitted token consumes at
least one character, so `length + 1` fuel cannot run out. -/
def tokenize (src : String) : Except String (List Token) :=
  tokenizeLoop (src.length + 1) ⟨src.data, 1, 1⟩

/-- Binary operators, from `include/AST.hpp`, `enum class BinaryOp`. -/
inductive BinaryOp where
  | add
  | subtract
  | multiply
  | divide
  | modulo
  | lessThan
  | greaterThan
  | equal
  | notEqual
  | and
  | or
deriving DecidableEq

/-- `BinaryExpression::opToString`. -/
def opToString : BinaryOp → String
  | .add => "+"
  | .subtract => "-"
  | .multiply => "*"
  | .divide => "/"
  | .modulo => "%"
  | .lessThan => "<"
  | .greaterThan => ">"
  | .equal => "=="
  | .notEqual => "!="
  | .and => "&&"
  | .or => "||"

/-- Expressions, from `include/AST.hpp`: `LiteralExpression` (keeps the
raw lexeme), `VariableExpression`, `BinaryExpression`. -/
inductive Expr where
  | lit (value : String)
  | var (name : String)
  | bin (left : Expr) (op : BinaryOp) (right : Expr)
deriving DecidableEq

/-- Statements, from `include/AST.hpp`: `BlockStatement`,
`VariableDeclaration`, `AssignmentStatement`, `IfStatement`,
`ReturnStatement`, `FunctionDeclaration` (parameters are already the
concatenated `"type name"` strings the parser stores). -/
inductive Stmt where
  | block (stmts : List Stmt)
  | varDecl (ty : String) (name : String) (init : Option Expr)
  | assign (name : String) (value : Expr)
  | ifStmt (cond : Expr) (thenB : Stmt) (elseB : Option Stmt)
  | ret (value : Option Expr)
  | funcDecl (retTy : String) (name : String) (params : List String) (body : List Stmt)

/-- The symbol table of `include/SymbolTable.hpp`: a flat mapping from
identifier to declared type-name, modelled as an association list. -/
abbrev SymbolTable := List (String × String)

/-- Map lookup underlying `SymbolTable::lookupVariable`. -/
def lookupVar (tbl : SymbolTable) (name : String) : Option String :=
  match tbl with
  | [] => none
  | p :: rest => if p.1 = name then some p.2 else lookupVar rest name

/-- `SymbolTable::declareVariable`: fails on re-declaration. -/
def declareVar (tbl : SymbolTable) (name ty : String) : Except String SymbolTable :=
  match lookupVar tbl name with
  | some _ => .error ("Variable '" ++ name ++ "' is already declared")
  | none => .ok ((name, ty) :: tbl)

/-- `SymbolTable::lookupVariable`: fails when the name is absent. -/
def lookupVarE (tbl : SymbolTable) (name : String) : Except String String :=
  match lookupVar tbl name with
  | some t => .ok t
  | none => .error ("Variable '" ++ name ++ "' is not declared")

/-- `LiteralExpression::getType`: `char` for a three-character
single-quoted lexeme, `std::string` when first and last characters are
double quotes, `float` when the lexeme contains a dot, else `int`.
(The C++ calls `front()`/`back()`, undefined on an empty lexeme; the
lexer never produces an empty literal lexeme, and the model reads the
head/last with a `'\0'` default.) -/
def litType (v : String) : String :=
  if v.data.length = 3 && v.data.headD nullChar = '\'' && v.data.getLastD nullChar = '\'' then
    "char"
  else if v.data.headD nullChar = '"' && v.data.getLastD nullChar = '"' then "std::string"
  else if v.data.contains '.' then "float"
  else "int"

/-- `Expression::getType` over the three expression variants;
`BinaryExpression::getType` computes both operand types first, then
applies the And/Or rule, the int/float promotion rule, and the exact
equality requirement. -/
def getType : Expr → SymbolTable → Except String String
  | .lit v, _ => .ok (litType v)
  | .var n, tbl => lookupVarE tbl n
  | .bin l op r, tbl => do
    let lt ← getType l tbl
    let rt ← getType r tbl
    if op = .and || op = .or then .ok "bool"
    else if (lt = "int" && rt = "float") || (lt = "float" && rt = "int") then .ok "float"
    else if lt ≠ rt then
      .error ("Type mismatch in binary expression: " ++ lt ++ " " ++ opToString op ++ " " ++ rt)
    else .ok lt

/-- `Expression::checkSemantics`: literals always pass, variables must be
declared, binary expressions only check both operands (no type is
computed here). -/
def checkExpr : Expr → SymbolTable → Except String Unit
  | .lit _, _ => .ok ()
  | .var n, tbl =>
    match lookupVar tbl n with
    | some _ => .ok ()
    | none => .error ("Variable '" ++ n ++ "' is not declared")
  | .bin l _ r, tbl => do
    let _ ← checkExpr l tbl
    checkExpr r tbl

mutual

/-- `Statement::checkSemantics` over the statement variants, threading
the (by-reference) symbol table.  Fuel strictly dominates the recursion
depth when instantiated with `sizeOf`. -/
def checkStmt : Nat → Stmt → SymbolTable → Except String SymbolTable
  | 0, _, _ => .error "CHECKER OUT OF FUEL"
  | Nat.succ f, s, tbl =>
    match s with
    | .block stmts => checkStmtList f stmts tbl
    | .varDecl ty name initO => do
      let tbl2 ← declareVar tbl name ty
      match initO with
      | none => .ok tbl2
      | some init => do
        let _ ← checkExpr init tbl2
        let it ← getType init tbl2
        if it = "int" && ty = "float" then .ok tbl2
        else if it = "float" && ty = "int" then
          .error "Cannot assign float to int without explicit cast"
        else if it ≠ ty then
          .error ("Type mismatch: Cannot initialize variable of type '" ++ ty ++
                  "' with value of type '" ++ it ++ "'")
        else .ok tbl2
    | .assign name value => do
      let _ ← checkExpr value tbl
      let vt ← lookupVarE tbl name
      let valt ← getType value tbl
      if valt = "int" && vt = "float" then .ok tbl
      else if valt = "float" && vt = "int" then
        .error "Cannot assign float to int without explicit cast"
      else if vt ≠ valt then
        .error ("Type mismatch in assignment: Cannot assign " ++ valt ++ " to " ++ vt)
      else .ok tbl
    | .ifStmt cond thenB elseO => do
      let _ ← checkExpr cond tbl
      let ct ← getType cond tbl
      if ct ≠ "int" && ct ≠ "bool" then
        .error "Condition in 'if' statement must be of type int or bool"
      else do
        let tbl2 ← checkStmt f thenB tbl
        match elseO with
        | none => .ok tbl2
        | some e => checkStmt f e tbl2
    | .ret none => .ok tbl
    | .ret (some v) => do
      let _ ← checkExpr v tbl
      .ok tbl
    | .funcDecl _ _ _ body => checkStmtList f body tbl

/-- The statement loops of `BlockStatement::checkSemantics` and
`FunctionDeclaration::checkSemantics`.  (Fuel is spent per list node so
that the whole group is structurally recursive on fuel; `stmtSize`
accounts for this.) -/
def checkStmtList : Nat → List Stmt → SymbolTable → Except String SymbolTable
  | 0, _, _ => .error "CHECKER OUT OF FUEL"
  | Nat.succ _, [], tbl => .ok tbl
  | Nat.succ f, s :: rest, tbl => do
    let tbl2 ← checkStmt f s tbl
    checkStmtList f rest tbl2

end

/-- `Token::tokenTypeToString`. -/
def tokenTypeToString : TokenType → String
  | .Identifier => "Identifier"
  | .Keyword => "Keyword"
  | .NumberLiteral => "NumberLiteral"
  | .StringLiteral => "StringLiteral"
  | .CharacterLiteral => "CharacterLiteral"
  | .Operator => "Operator"
  | .Separator => "Separator"
  | .Comment => "Comment"
  | .EndOfFile => "EndOfFile"
  | .Unknown => "Unknown"
  | .BooleanLiteral => "BooleanLiteral"
  | .NullLiteral => "NullLiteral"
  | .FloatingPointLiteral => "FloatingPointLiteral"

/-- Decimal digit characters, as printed by `std::to_string`. -/
def digitChar : Nat → Char
  | 0 => '0'
  | 1 => '1'
  | 2 => '2'
  | 3 => '3'
  | 4 => '4'
  | 5 => '5'
  | 6 => '6'
  | 7 => '7'
  | 8 => '8'
  | 9 => '9'
  | _ => '?'

/-- Decimal digit list of `n`, most significant first (fuel-driven; fuel
`n + 1` always suffices since the argument at least halves each step). -/
def natDigits : Nat → Nat → List Char
  | 0, _ => []
  | Nat.succ f, n => if n < 10 then [digitChar n] else natDigits f (n / 10) ++ [digitChar (n % 10)]

/-- `std::to_string` on a non-negative int. -/
def natRepr (n : Nat) : String :=
  ⟨natDigits (n + 1) n⟩

/-- `Token::toString`. -/
def tokenToString (t : Token) : String :=
  "Token(" ++ tokenTypeToString t.type ++ ", \"" ++ t.value ++ "\", Line: " ++
  natRepr t.line ++ ", Column: " ++ natRepr t.col ++ ")"

/-- `Parser::currentToken`: the token at the cursor, or a fresh
`EndOfFile` token with line and column `0` past the end. -/
def currentToken (ts : List Token) (i : Nat) : Token :=
  ts.getD i ⟨.EndOfFile, "", 0, 0⟩

/-- `Parser::advance`: saturates at the end of the token list. -/
def advanceI (ts : List Token) (i : Nat) : Nat :=
  if i < ts.length then i + 1 else i

/-- `Parser::getPrecedence` (`-1` for anything that is not a recognized
binary operator). -/
def getPrecedence (t : Token) : Int :=
  if t.type = .Operator then
    if t.value = "+" || t.value = "-" then 10
    else if t.value = "*" || t.value = "/" || t.value = "%" then 20
    else if t.value = "==" || t.value = "!=" then 5
    else if t.value = "&&" || t.value = "||" then 3
    else if t.value = "<" || t.value = ">" || t.value = "<=" || t.value = ">=" then 15
    else -1
  else -1

/-- `Parser::tokenToBinaryOp`. -/
def tokenToBinaryOp (t : Token) : Except String BinaryOp :=
  if t.value = "+" then .ok .add
  else if t.value = "-" then .ok .subtract
  else if t.value = "*" then .ok .multiply
  else if t.value = "/" then .ok .divide
  else if t.value = "%" then .ok .modulo
  else if t.value = "<" then .ok .lessThan
  else if t.value = ">" then .ok .greaterThan
  else if t.value = "==" then .ok .equal
  else if t.value = "!=" then .ok .notEqual
  else if t.value = "&&" then .ok .and
  else if t.value = "||" then .ok .or
  else .error ("Unknown binary operator: " ++ tokenToString t)

/-- `Parser::parsePrimaryExpression` (not recursive): literal kinds
become `LiteralExpression`, identifiers become `VariableExpression`. -/
def parsePrimary (ts : List Token) (i : Nat) : Except String (Expr × Nat) :=
  let cur := currentToken ts i
  if cur.type = .NumberLiteral || cur.type = .FloatingPointLiteral ||
     cur.type = .StringLiteral || cur.type = .CharacterLiteral then
    .ok (.lit cur.value, advanceI ts i)
  else if cur.type = .Identifier then
    .ok (.var cur.value, advanceI ts i)
  else .error ("Unexpected token in expression: " ++ tokenToString cur)

mutual

/-- `Parser::parseStatement`: dispatch on the current token. -/
def parseStatement : Nat → List Token → Nat → Except String (Stmt × Nat)
  | 0, _, _ => .error "PARSER OUT OF FUEL"
  | Nat.succ f, ts, i =>
    let cur := currentToken ts i
    if cur.type = .Separator && cur.value = "\x7b" then parseBlock f ts i
    else if cur.type = .Keyword then
      if cur.value = "int" || cur.value = "float" || cur.value = "char" ||
         cur.value = "std::string" then parseVarDecl f ts i
      else if cur.value = "return" then parseReturn f ts i
      else if cur.value = "if" then parseIf f ts i
      else .error ("Unexpected token: " ++ tokenToString cur)
    else if cur.type = .Identifier then parseAssignOrCall f ts i
    else .error ("Unexpected token: " ++ tokenToString cur)
termination_by structural f _ _ => f

/-- `Parser::parseBlockStatement`: skip `{`, then loop. -/
def parseBlock : Nat → List Token → Nat → Except String (Stmt × Nat)
  | 0, _, _ => .error "PARSER OUT OF FUEL"
  | Nat.succ f, ts, i => do
    let r ← parseStmtSeq f ts (advanceI ts i) []
    .ok (.block r.1, r.2)
termination_by structural f _ _ => f

/-- The statement-collecting loop shared by `parseBlockStatement` and the
body of `parseFunctionDeclaration`: parse statements until a `}`
separator, then skip it. -/
def parseStmtSeq : Nat → List Token → Nat → List Stmt → Except String (List Stmt × Nat)
  | 0, _, _, _ => .error "PARSER OUT OF FUEL"
  | Nat.succ f, ts, i, acc =>
    let cur := currentToken ts i
    if cur.type = .Separator && cur.value = "\x7d" then .ok (acc, advanceI ts i)
    else do
      let r ← parseStatement f ts i
      parseStmtSeq f ts r.2 (acc ++ [r.1])
termination_by structural f _ _ _ => f

/-- `Parser::parseIfStatement`. -/
def parseIf : Nat → List Token → Nat → Except String (Stmt × Nat)
  | 0, _, _ => .error "PARSER OUT OF FUEL"
  | Nat.succ f, ts, i => do
    let i := advanceI ts i
    let cur := currentToken ts i
    if cur.type = .Separator && cur.value = "(" then do
      let i := advanceI ts i
      let rc ← parseExpression f ts i
      let cur2 := currentToken ts rc.2
      if cur2.type = .Separator && cur2.value = ")" then do
        let i2 := advanceI ts rc.2
        let rt ← parseStatement f ts i2
        let cur3 := currentToken ts rt.2
        if cur3.type = .Keyword && cur3.value = "else" then do
          let re ← parseStatement f ts (advanceI ts rt.2)
          .ok (.ifStmt rc.1 rt.1 (some re.1), re.2)
        else .ok (.ifStmt rc.1 rt.1 none, rt.2)
      else .error "Expected ')' after 'if' condition"
    else .error "Expected '(' after 'if'"
termination_by structural f _ _ => f

/-- `Parser::parseAssignmentOrFunctionCall`. -/
def parseAssignOrCall : Nat → List Token → Nat → Except String (Stmt × Nat)
  | 0, _, _ => .error "PARSER OUT OF FUEL"
  | Nat.succ f, ts, i =>
    let name := (currentToken ts i).value
    let i2 := advanceI ts i
    let cur := currentToken ts i2
    if cur.type = .Operator && cur.value = "=" then do
      let rv ← parseExpression f ts (advanceI ts i2)
      let cur2 := currentToken ts rv.2
      if cur2.type = .Separator && cur2.value = ";" then
        .ok (.assign name rv.1, advanceI ts rv.2)
      else .error "Expected ';' after assignment"
    else if cur.type = .Separator && cur.value = "(" then
      .error "Function calls not yet supported."
    else .error ("Unexpected token after identifier: " ++ tokenToString cur)

/-- `Parser::parseVariableDeclaration` (also the entry into function
declarations). -/
def parseVarDecl : Nat → List Token → Nat → Except String (Stmt × Nat)
  | 0, _, _ => .error "PARSER OUT OF FUEL"
  | Nat.succ f, ts, i =>
    let ty := (currentToken ts i).value
    let i2 := advanceI ts i
    let cur := currentToken ts i2
    if cur.type = .Identifier then
      let name := cur.value
      let i3 := advanceI ts i2
      let cur2 := currentToken ts i3
      if cur2.type = .Separator && cur2.value = "(" then parseFuncDecl f ts i3 ty name
      else if cur2.type = .Operator && cur2.value = "=" then do
        let rv ← parseExpression f ts (advanceI ts i3)
        let cur3 := currentToken ts rv.2
        if cur3.type = .Separator && cur3.value = ";" then
          .ok (.varDecl ty name (some rv.1), advanceI ts rv.2)
        else .error "Expected ';' after variable declaration"
      else if cur2.type = .Separator && cur2.value = ";" then
        .ok (.varDecl ty name none, advanceI ts i3)
      else .error "Expected ';' after variable declaration"
    else .error "Expected identifier after type in variable declaration"
termination_by structural f _ _ => f

/-- `Parser::parseFunctionDeclaration`, entered at the `(`. -/
def parseFuncDecl : Nat → List Token → Nat → String → String → Except String (Stmt × Nat)
  | 0, _, _, _, _ => .error "PARSER OUT OF FUEL"
  | Nat.succ f, ts, i, retTy, name => do
    let rp ← parseParams f ts (advanceI ts i) []
    let cur := currentToken ts rp.2
    if cur.type = .Separator && cur.value = ")" then
      let i2 := advanceI ts rp.2
      let cur2 := currentToken ts i2
      if cur2.type = .Separator && cur2.value = "\x7b" then do
        let rb ← parseStmtSeq f ts (advanceI ts i2) []
        .ok (.funcDecl retTy name rp.1 rb.1, rb.2)
      else .error "Expected '\x7b' at the beginning of function body"
    else .error "Expected ')' after function parameters"
termination_by structural f _ _ _ _ => f

/-- The parameter loop of `Parser::parseFunctionDeclaration`: both the
parameter type token and the parameter name token must be `Identifier`;
a comma continues the loop, anything else breaks it. -/
def parseParams : Nat → List Token → Nat → List String → Except String (List String × Nat)
  | 0, _, _, _ => .error "PARSER OUT OF FUEL"
  | Nat.succ f, ts, i, acc =>
    let cur := currentToken ts i
    if cur.type = .Separator && cur.value = ")" then .ok (acc, i)
    else if cur.type = .Identifier then
      let pty := cur.value
      let i2 := advanceI ts i
      let cur2 := currentToken ts i2
      if cur2.type = .Identifier then
        let pname := cur2.value
        let i3 := advanceI ts i2
        let acc2 := acc ++ [pty ++ " " ++ pname]
        let cur3 := currentToken ts i3
        if cur3.type = .Separator && cur3.value = "," then parseParams f ts (advanceI ts i3) acc2
        else .ok (acc2, i3)
      else .error "Expected parameter name after type in function declaration"
    else .error "Expected parameter type in function declaration"
termination_by structural f _ _ _ => f

/-- `Parser::parseReturn`: unconditionally parses a value expression. -/
def parseReturn : Nat → List Token → Nat → Except String (Stmt × Nat)
  | 0, _, _ => .error "PARSER OUT OF FUEL"
  | Nat.succ f, ts, i => do
    let rv ← parseExpression f ts (advanceI ts i)
    let cur := currentToken ts rv.2
    if cur.type = .Separator && cur.value = ";" then .ok (.ret (some rv.1), advanceI ts rv.2)
    else .error "Expected ';' after return statement"

/-- `Parser::parseExpression`. -/
def parseExpression : Nat → List Token → Nat → Except String (Expr × Nat)
  | 0, _, _ => .error "PARSER OUT OF FUEL"
  | Nat.succ f, ts, i => parseBinary f 0 ts i

/-- `Parser::parseBinaryExpression`: a primary followed by the
precedence-climbing loop. -/
def parseBinary : Nat → Int → List Token → Nat → Except String (Expr × Nat)
  | 0, _, _, _ => .error "PARSER OUT OF FUEL"
  | Nat.succ f, prec, ts, i => do
    let rl ← parsePrimary ts i
    parseBinLoop f prec rl.1 ts rl.2
termination_by structural f _ _ _ => f

/-- The `while (true)` loop of `Parser::parseBinaryExpression`. -/
def parseBinLoop : Nat → Int → Expr → List Token → Nat → Except String (Expr × Nat)
  | 0, _, _, _, _ => .error "PARSER OUT OF FUEL"
  | Nat.succ f, prec, left, ts, i =>
    let cur := currentToken ts i
    let tp := getPrecedence cur
    if tp < prec then .ok (left, i)
    else do
      let op ← tokenToBinaryOp cur
      let rr ← parseBinary f (tp + 1) ts (advanceI ts i)
      parseBinLoop f prec (.bin left op rr.1) ts rr.2
termination_by structural f _ _ _ _ => f

end

/-- Fuel that cannot be exhausted by the parser on `ts`: every fuel unit
spent without an immediate result accompanies the consumption of at
least one token within two nested calls. -/
def parserFuel (ts : List Token) : Nat :=
  3 * ts.length + 10

mutual

/-- Computable structural size of a statement, used as fuel for the tree
walks; it strictly dominates the size of every nested statement. -/
def stmtSize : Stmt → Nat
  | .block l => stmtListSize l + 1
  | .varDecl _ _ _ => 1
  | .assign _ _ => 1
  | .ifStmt _ t e =>
    stmtSize t + (match e with
                  | none => 0
                  | some s => stmtSize s) + 1
  | .ret _ => 1
  | .funcDecl _ _ _ body => stmtListSize body + 1

/-- Computable structural size of a statement list (at least `1`, since
the list walks spend one fuel unit even on an empty list). -/
def stmtListSize : List Stmt → Nat
  | [] => 1
  | s :: rest => stmtSize s + stmtListSize rest + 1

end

/-- `Parser::parse`: parse a single root statement from cursor `0`, then
run semantic analysis on it with a fresh symbol table.  The remaining
tokens are not consulted. -/
def parseTokens (ts : List Token) : Except String Stmt := do
  let r ← parseStatement (parserFuel ts) ts 0
  let _ ← checkStmt (stmtSize r.1) r.1 []
  .ok r.1

/-- A TAC instruction, from `include/IRGenerator.hpp`,
`struct TACInstruction`. -/
structure TAC where
  op : String
  arg1 : String
  arg2 : String
  result : String
deriving DecidableEq

/-- State of `IRGenerator` during a walk: the instruction buffer `code`
and `tempVarCount` (initialized to `0`). -/
structure GenSt where
  code : List TAC
  tempCnt : Nat
deriving DecidableEq

/-- `code.emplace_back(...)`. -/
def emit (st : GenSt) (ins : TAC) : GenSt :=
  ⟨st.code ++ [ins], st.tempCnt⟩

/-- `IRGenerator::getNewTempVar` produces `"t" + std::to_string(n)`. -/
def tName (n : Nat) : String :=
  "t" ++ natRepr n

/-- `IRGenerator::generateExpression`: literals and variables pass their
spelling through as the result operand; a binary expression lowers both
operands, allocates a fresh temporary and emits one instruction. -/
def genExpr : Expr → GenSt → String × GenSt
  | .lit v, st => (v, st)
  | .var n, st => (n, st)
  | .bin l op r, st =>
    let rl := genExpr l st
    let rr := genExpr r rl.2
    let t := tName rr.2.tempCnt
    (t, ⟨rr.2.code ++ [⟨opToString op, rl.1, rr.1, t⟩], rr.2.tempCnt + 1⟩)

mutual

/-- `IRGenerator::generateStatement`.  Note that the `return;` at the end
of the `ReturnStatement` branch only leaves `generateStatement` itself:
it does not stop the caller's loop, so only the function-body loop
(`genBody`) reacts to a trailing `RET`. -/
def genStmt : Nat → Stmt → GenSt → GenSt
  | 0, _, st => st
  | Nat.succ f, s, st =>
    match s with
    | .varDecl _ name initO =>
      (match initO with
       | none => st
       | some init =>
         let r := genExpr init st
         emit r.2 ⟨"MOV", r.1, "", name⟩)
    | .assign name value =>
      let r := genExpr value st
      emit r.2 ⟨"MOV", r.1, "", name⟩
    | .ifStmt cond thenB elseO =>
      let rc := genExpr cond st
      let st2 := emit rc.2 ⟨"IF_FALSE", rc.1, "", "L1"⟩
      let st3 := genStmt f thenB st2
      let st4 := emit st3 ⟨"GOTO", "", "", "L2"⟩
      let st5 := emit st4 ⟨"LABEL", "", "", "L1"⟩
      let st6 := (match elseO with
                  | none => st5
                  | some e => genStmt f e st5)
      emit st6 ⟨"LABEL", "", "", "L2"⟩
    | .block stmts => genStmtList f stmts st
    | .ret valueO =>
      (match valueO with
       | none => emit st ⟨"RET", "", "", ""⟩
       | some v =>
         let r := genExpr v st
         emit r.2 ⟨"RET", r.1, "", ""⟩)
    | .funcDecl _ name _ body =>
      let st1 := emit st ⟨"LABEL", "", "", name⟩
      let st2 := genBody f body st1
      (match st2.code.getLast? with
       | none => emit st2 ⟨"RET", "", "", ""⟩
       | some ins => if ins.op ≠ "RET" then emit st2 ⟨"RET", "", "", ""⟩ else st2)

/-- The statement loop of `IRGenerator::generateCode` and of the
`BlockStatement` branch of `generateStatement`: no early exit. -/
def genStmtList : Nat → List Stmt → GenSt → GenSt
  | 0, _, st => st
  | Nat.succ _, [], st => st
  | Nat.succ f, s :: rest, st => genStmtList f rest (genStmt f s st)

/-- The body loop of the `FunctionDeclaration` branch: after each body
statement, stop as soon as the (global) buffer ends with a `RET`. -/
def genBody : Nat → List Stmt → GenSt → GenSt
  | 0, _, st => st
  | Nat.succ _, [], st => st
  | Nat.succ f, s :: rest, st =>
    let st2 := genStmt f s st
    (match st2.code.getLast? with
     | some ins => if ins.op = "RET" then st2 else genBody f rest st2
     | none => genBody f rest st2)

end

/-- `IRGenerator::generateCode`: a top-level block is iterated directly,
anything else is a single `generateStatement`; `tempVarCount` starts at
`0` and the buffer starts empty. -/
def genCode (ast : Stmt) : List TAC :=
  (match ast with
   | .block stmts => genStmtList (stmtSize ast) stmts ⟨[], 0⟩
   | s => genStmt (stmtSize s) s ⟨[], 0⟩).code

/-- `Compiler::compile` without the file system: tokenize, parse (which
includes semantic analysis), and generate the TAC list that would be
written to the output file. -/
def compile (src : String) : Except String (List TAC) := do
  let ts ← tokenize src
  let ast ← parseTokens ts
  .ok (genCode ast)

/-- Variable names referenced by an expression (used to characterize
`Expression::checkSemantics`, which checks declaredness and nothing
else). -/
def exprVars : Expr → List String
  | .lit _ => []
  | .var n => [n]
  | .bin l _ r => exprVars l ++ exprVars r

/-- Every name an expression can contribute to an emitted instruction:
literal spellings and variable names (they become operands verbatim). -/
def exprNames : Expr → List String
  | .lit v => [v]
  | .var n => [n]
  | .bin l _ r => exprNames l ++ exprNames r

mutual

/-- Every name a statement can contribute to an emitted instruction,
collected with the same fuel discipline as `genStmt`. -/
def stmtNames : Nat → Stmt → List String
  | 0, _ => []
  | Nat.succ f, s =>
    match s with
    | .varDecl _ name initO =>
      name :: (match initO with
               | none => []
               | some e => exprNames e)
    | .assign name v => name :: exprNames v
    | .ifStmt cond t e =>
      exprNames cond ++ stmtNames f t ++ (match e with
                                          | none => []
                                          | some e2 => stmtNames f e2)
    | .block l => stmtNamesList f l
    | .ret v =>
      (match v with
       | none => []
       | some e => exprNames e)
    | .funcDecl _ name _ body => name :: stmtNamesList f body

/-- Names contributed by a statement list, fuelled like `genStmtList`. -/
def stmtNamesList : Nat → List Stmt → List String
  | 0, _ => []
  | Nat.succ _, [] => []
  | Nat.succ f, s :: rest => stmtNames f s ++ stmtNamesList f rest

end

/-- Names the IR generator can copy into instructions when lowering a
root AST, matching the fuel used by `genCode`. -/
def astNames : Stmt → List String
  | .block l => stmtNamesList (stmtSize (.block l)) l
  | s => stmtNames (stmtSize s) s

/-- The opcodes of non-expression instructions (`MOV`, `LABEL`, `GOTO`,
`IF_FALSE`, `RET`); every other emitted opcode is a binary operator. -/
def stmtOps : List String := ["MOV", "LABEL", "GOTO", "IF_FALSE", "RET"]

/-- The temporary-name discipline claimed for generated instruction
lists: a temporary `tN` may appear as a `result` only of a single
binary-operator instruction, and only instructions strictly after it may
mention `tN` as `arg1` or `arg2`. -/
def TempDiscipline (code : List TAC) : Prop :=
  ∀ n i, ∀ hi : i < code.length,
    (code.get ⟨i, hi⟩).result = tName n →
      ((code.get ⟨i, hi⟩).op ∉ stmtOps) ∧
      (∀ j, ∀ hj : j < code.length, (code.get ⟨j, hj⟩).result = tName n → j = i) ∧
      (∀ j, ∀ hj : j < code.length, j ≤ i →
        (code.get ⟨j, hj⟩).arg1 ≠ tName n ∧ (code.get ⟨j, hj⟩).arg2 ≠ tName n)

/-- Inverse of `digitChar` on decimal digits. -/
def digitVal (c : Char) : Nat :=
  if c = '0' then 0
  else if c = '1' then 1
  else if c = '2' then 2
  else if c = '3' then 3
  else if c = '4' then 4
  else if c = '5' then 5
  else if c = '6' then 6
  else if c = '7' then 7
  else if c = '8' then 8
  else if c = '9' then 9
  else 99

/-- Round-trip property of a lexeme: feeding it back to the lexer yields
exactly one token carrying the same lexeme (at column 1). -/
def RT (s : String) : Prop :=
  ∃ k l, tokenize s = .ok [⟨k, s, l, 1⟩]

/-- Invariant carried by the generator state while walking the tree:
every `result` that is a temporary names an allocated temporary and sits
on a binary-operator instruction, no two instructions define the same
temporary, and every temporary used as an argument was defined by an
earlier instruction. -/
def TempInv (code : List TAC) (cnt : Nat) : Prop :=
  (∀ i, ∀ hi : i < code.length, ∀ n, (code.get ⟨i, hi⟩).result = tName n →
    n < cnt ∧ (code.get ⟨i, hi⟩).op ∉ stmtOps) ∧
  (∀ n i j, ∀ hi : i < code.length, ∀ hj : j < code.length,
    (code.get ⟨i, hi⟩).result = tName n → (code.get ⟨j, hj⟩).result = tName n → i = j) ∧
  (∀ n j, ∀ hj : j < code.length,
    ((code.get ⟨j, hj⟩).arg1 = tName n ∨ (code.get ⟨j, hj⟩).arg2 = tName n) →
    ∃ i, ∃ hi : i < code.length, i < j ∧ (code.get ⟨i, hi⟩).result = tName n)

/-- An operand produced by `generateExpression` is sound for later use:
whenever it is a temporary name, some instruction already in the buffer
defines it. -/
def ResOK (code : List TAC) (r : String) : Prop :=
  ∀ n, r = tName n → ∃ i, ∃ hi : i < code.length, (code.get ⟨i, hi⟩).result = r

/-- `int t0 = 1 + 2;`: a legal declaration whose variable name collides
with the first temporary. -/
def astC8 : Stmt := .varDecl "int" "t0" (some (.bin (.lit "1") .add (.lit "2")))

/-- Token list of `"int x = 1; x = 2;"`. -/
def tsC1 : List Token :=
  [⟨.Keyword, "int", 1, 1⟩, ⟨.Identifier, "x", 1, 5⟩, ⟨.Operator, "=", 1, 7⟩,
   ⟨.NumberLiteral, "1", 1, 9⟩, ⟨.Separator, ";", 1, 10⟩, ⟨.Identifier, "x", 1, 12⟩,
   ⟨.Operator, "=", 1, 14⟩, ⟨.NumberLiteral, "2", 1, 16⟩, ⟨.Separator, ";", 1, 17⟩]

/-- The single root statement the parser extracts from
`"int x = 1; x = 2;"`. -/
def astC1 : Stmt := .varDecl "int" "x" (some (.lit "1"))

/-- Token list of `"int x;"` (no trailing whitespace). -/
def tsC2 : List Token :=
  [⟨.Keyword, "int", 1, 1⟩, ⟨.Identifier, "x", 1, 5⟩, ⟨.Separator, ";", 1, 6⟩]

/-- Token list of `"int x; "` (trailing space). -/
def tsC2w : List Token :=
  [⟨.Keyword, "int", 1, 1⟩, ⟨.Identifier, "x", 1, 5⟩, ⟨.Separator, ";", 1, 6⟩,
   ⟨.EndOfFile, "", 1, 8⟩]

/-- Token list of `"{ int x = 1; return x; x = 2; }"`. -/
def tsC5 : List Token :=
  [⟨.Separator, "\x7b", 1, 1⟩, ⟨.Keyword, "int", 1, 3⟩, ⟨.Identifier, "x", 1, 7⟩,
   ⟨.Operator, "=", 1, 9⟩, ⟨.NumberLiteral, "1", 1, 11⟩, ⟨.Separator, ";", 1, 12⟩,
   ⟨.Keyword, "return", 1, 14⟩, ⟨.Identifier, "x", 1, 21⟩, ⟨.Separator, ";", 1, 22⟩,
   ⟨.Identifier, "x", 1, 24⟩, ⟨.Operator, "=", 1, 26⟩, ⟨.NumberLiteral, "2", 1, 28⟩,
   ⟨.Separator, ";", 1, 29⟩, ⟨.Separator, "\x7d", 1, 31⟩]

/-- AST of `"{ int x = 1; return x; x = 2; }"`. -/
def astC5 : Stmt :=
  .block [.varDecl "int" "x" (some (.lit "1")), .ret (some (.var "x")), .assign "x" (.lit "2")]

/-- Token list of `"int f(int a, int b) { return a + b; }"`. -/
def tsC7 : List Token :=
  [⟨.Keyword, "int", 1, 1⟩, ⟨.Identifier, "f", 1, 5⟩, ⟨.Separator, "(", 1, 6⟩,
   ⟨.Keyword, "int", 1, 7⟩, ⟨.Identifier, "a", 1, 11⟩, ⟨.Separator, ",", 1, 12⟩,
   ⟨.Keyword, "int", 1, 14⟩, ⟨.Identifier, "b", 1, 18⟩, ⟨.Separator, ")", 1, 19⟩,
   ⟨.Separator, "\x7b", 1, 21⟩, ⟨.Keyword, "return", 1, 23⟩, ⟨.Identifier, "a", 1, 30⟩,
   ⟨.Operator, "+", 1, 32⟩, ⟨.Identifier, "b", 1, 34⟩, ⟨.Separator, ";", 1, 35⟩,
   ⟨.Separator, "\x7d", 1, 37⟩]

/-- Token list of `"char c = '\'';"`; the character-literal lexeme is the
three characters quote, backslash, quote. -/
def tsC9 : List Token :=
  [⟨.Keyword, "char", 1, 1⟩, ⟨.Identifier, "c", 1, 6⟩, ⟨.Operator, "=", 1, 8⟩,
   ⟨.CharacterLiteral, "'\\'", 1, 10⟩, ⟨.Separator, ";", 1, 14⟩]

/-- AST of `"char c = '\'';"`. -/
def astC9 : Stmt := .varDecl "char" "c" (some (.lit "'\\'"))

/-- Token list of `"{ int x = 1; char c = 'a'; return x + c; }"`. -/
def tsC10 : List Token :=
  [⟨.Separator, "\x7b", 1, 1⟩, ⟨.Keyword, "int", 1, 3⟩, ⟨.Identifier, "x", 1, 7⟩,
   ⟨.Operator, "=", 1, 9⟩, ⟨.NumberLiteral, "1", 1, 11⟩, ⟨.Separator, ";", 1, 12⟩,
   ⟨.Keyword, "char", 1, 14⟩, ⟨.Identifier, "c", 1, 19⟩, ⟨.Operator, "=", 1, 21⟩,
   ⟨.CharacterLiteral, "'a'", 1, 23⟩, ⟨.Separator, ";", 1, 26⟩, ⟨.Keyword, "return", 1, 28⟩,
   ⟨.Identifier, "x", 1, 35⟩, ⟨.Operator, "+", 1, 37⟩, ⟨.Identifier, "c", 1, 39⟩,
   ⟨.Separator, ";", 1, 40⟩, ⟨.Separator, "\x7d", 1, 42⟩]

/-- AST of `"{ int x = 1; char c = 'a'; return x + c; }"`. -/
def astC10 : Stmt :=
  .block [.varDecl "int" "x" (some (.lit "1")), .varDecl "char" "c" (some (.lit "'a'")),
          .ret (some (.bin (.var "x") .add (.var "c")))]

/-- Staging lemma: a concrete compilation is the generated code of its
parsed root once each pipeline stage's result is known. -/
theorem compile_ok_of (src : String) (ts : List Token) (ast : Stmt) (n : Nat)
    (tbl : SymbolTable) (h1 : tokenize src = .ok ts)
    (h2 : parseStatement (parserFuel ts) ts 0 = .ok (ast, n))
    (h3 : checkStmt (stmtSize ast) ast [] = .ok tbl) :
    compile src = .ok (genCode ast) := by
  unfold compile parseTokens
  rw [h1]
  simp only [Except.bind, bind, h2, h3]

/-- Staging lemma: a parse error is the result of the whole compilation. -/
theorem compile_err_parse (src : String) (ts : List Token) (e : String)
    (h1 : tokenize src = .ok ts)
    (h2 : parseStatement (parserFuel ts) ts 0 = .error e) :
    compile src = .error e := by
  unfold compile parseTokens
  rw [h1]
  simp only [Except.bind, bind, h2]

/-- Claim C1: compiling `int x = 1; x = 2;` is claimed to produce the two
instructions `MOV 1  x` and `MOV 2  x`; in fact `parse()` parses a
single root statement, so only `MOV 1  x` is produced.  This
counterexample evaluates the pipeline at that very input. -/
theorem c1_counterexample :
    compile "int x = 1; x = 2;" = .ok [⟨"MOV", "1", "", "x"⟩] ∧
    (Except.ok [⟨"MOV", "1", "", "x"⟩] : Except String (List TAC)) ≠
      .ok [⟨"MOV", "1", "", "x"⟩, ⟨"MOV", "2", "", "x"⟩] := by
  constructor
  · rw [compile_ok_of _ tsC1 astC1 5 [("x", "int")] (by decide) rfl (by decide)]
    decide
  · decide

/-- Claim C1 (amended): compiling `int x = 1; x = 2;` produces exactly
the single instruction `MOV 1  x`: `parse()` returns after the first
top-level statement (the cursor stops at token index 5 of 9), so the
second statement is never parsed, checked, or lowered. -/
theorem c1_theorem :
    compile "int x = 1; x = 2;" = .ok [⟨"MOV", "1", "", "x"⟩] ∧
    tokenize "int x = 1; x = 2;" = .ok tsC1 ∧
    parseStatement (parserFuel tsC1) tsC1 0 = .ok (astC1, 5) ∧
    tsC1.length = 9 := by
  refine ⟨?_, by decide, rfl, by decide⟩
  rw [compile_ok_of _ tsC1 astC1 5 [("x", "int")] (by decide) rfl (by decide)]
  decide

/-- Claim C2: `tokenize()` is claimed to always end with an `EndOfFile`
token; in fact the loop runs only while the index is inside the buffer,
so the empty input produces an empty token list, and an input whose last
character completes a token (here `int x;`) ends with that token. -/
theorem c2_counterexample :
    tokenize "" = .ok [] ∧
    tokenize "int x;" = .ok tsC2 ∧
    tsC2.getLast?.map Token.type = some .Separator ∧
    some TokenType.Separator ≠ some TokenType.EndOfFile := by
  refine ⟨by decide, by decide, by decide, by decide⟩

/-- An `EndOfFile` token can only appear as the last element of a
successful `tokenizeLoop` result (the loop stops right after emitting
it). -/
theorem eof_only_last :
    ∀ f st ts, tokenizeLoop f st = .ok ts →
      ∀ i, ∀ hi : i < ts.length, (ts.get ⟨i, hi⟩).type = .EndOfFile → i + 1 = ts.length := by
  intro f
  induction f with
  | zero => intro st ts h; exact absurd h (by simp [tokenizeLoop])
  | succ f ih =>
    intro st ts h
    rw [tokenizeLoop] at h
    cases hcs : st.chars with
    | nil =>
      rw [hcs] at h
      simp only [Except.ok.injEq] at h
      subst h
      intro i hi
      exact absurd hi (by simp)
    | cons c rest =>
      rw [hcs] at h
      cases hnt : nextToken st with
      | error e =>
        rw [hnt] at h
        exact absurd h (by simp)
      | ok pair =>
        rw [hnt] at h
        simp only at h
        by_cases heof : pair.1.type = .EndOfFile
        · rw [if_pos heof] at h
          simp only [Except.ok.injEq] at h
          subst h
          intro i hi _
          simpa using hi
        · rw [if_neg heof] at h
          cases hrec : tokenizeLoop f pair.2 with
          | error e =>
            rw [hrec] at h
            exact absurd h (by simp)
          | ok rest2 =>
            rw [hrec] at h
            simp only [Except.ok.injEq] at h
            by_cases hunk : pair.1.type = .Unknown
            · rw [if_pos hunk] at h
              subst h
              exact ih pair.2 rest2 hrec
            · rw [if_neg hunk] at h
              subst h
              intro i hi htype
              match i with
              | 0 => exact absurd htype heof
              | Nat.succ j =>
                have hj : j < rest2.length := by simpa using hi
                have := ih pair.2 rest2 hrec j hj (by simpa using htype)
                simp [← this]

/-- Claim C2 (amended): an `EndOfFile` token can only be the final token
of a `tokenize()` result, and it is present exactly when the last
`nextToken` call starts inside the buffer and consumes to its end — for
example for `int x; ` with trailing whitespace — but the empty input
yields an empty token sequence, and `int x;` ends with the `;` separator
instead. -/
theorem c2_theorem :
    (∀ f st ts, tokenizeLoop f st = .ok ts →
      ∀ i, ∀ hi : i < ts.length, (ts.get ⟨i, hi⟩).type = .EndOfFile → i + 1 = ts.length) ∧
    tokenize "int x; " = .ok tsC2w ∧
    tsC2w.getLast?.map Token.type = some .EndOfFile ∧
    tokenize "" = .ok [] ∧
    tokenize "int x;" = .ok tsC2 ∧
    tsC2.getLast?.map Token.type = some .Separator :=
  ⟨eof_only_last, by decide, by decide, by decide, by decide, by decide⟩

/-- Witness for C2 (amended): the quantified conjunct applied to the
concrete run of the loop on the single-space source, whose only token is
the final `EndOfFile`. -/
theorem c2_witness : (0 : Nat) + 1 = 1 :=
  c2_theorem.1 2 ⟨[' '], 1, 1⟩ [⟨.EndOfFile, "", 1, 2⟩] (by decide) 0 (by decide) (by decide)

/-- Claim C5: the IR generator is claimed to stop an enclosing statement
sequence once a `Return` is lowered.  The `return;` in the
`ReturnStatement` branch of `generateStatement` only leaves that call:
for the block input `{ int x = 1; return x; x = 2; }` the assignment
after `return` is still lowered, producing `MOV 2  x` after `RET x`. -/
theorem c5_theorem :
    compile "\x7b int x = 1; return x; x = 2; \x7d" =
      .ok [⟨"MOV", "1", "", "x"⟩, ⟨"RET", "x", "", ""⟩, ⟨"MOV", "2", "", "x"⟩] := by
  rw [compile_ok_of _ tsC5 astC5 14 [("x", "int")] (by decide) rfl (by decide)]
  decide

/-- Claim C3: the type of a binary expression with well-typed operands of
types `L` and `R` is `bool` for `And`/`Or` (whatever the operands),
`float` when the operand types are `int` and `float` in either order,
`L` when `L = R`, and a fatal type-mismatch error otherwise; in
particular `a < b` with `int` operands has type `int`, not `bool`. -/
theorem c3_theorem :
    (∀ (tbl : SymbolTable) (l r : Expr) (op : BinaryOp) (L R : String),
      getType l tbl = .ok L → getType r tbl = .ok R →
      getType (.bin l op r) tbl =
        (if op = .and ∨ op = .or then .ok "bool"
         else if (L = "int" ∧ R = "float") ∨ (L = "float" ∧ R = "int") then .ok "float"
         else if L = R then .ok L
         else .error ("Type mismatch in binary expression: " ++ L ++ " " ++
                      opToString op ++ " " ++ R))) ∧
    getType (.bin (.var "a") .lessThan (.var "b")) [("a", "int"), ("b", "int")] = .ok "int" := by
  constructor
  · intro tbl l r op L R hl hr
    rw [getType, hl, hr]
    simp only [Except.bind, bind]
    split_ifs with h1 h2 h3 <;> simp_all
  · decide

/-- Witness for C3: with both operands the `int` literals `1` and `2`,
the addition has type `int`. -/
theorem c3_witness : getType (.bin (.lit "1") .add (.lit "2")) [] = .ok "int" := by
  have := c3_theorem.1 [] (.lit "1") (.lit "2") .add "int" "int" (by decide) (by decide)
  simpa using this

/-- Claim C6: for an initialized declaration, once the declaration of the
name succeeded and the initializer is semantically valid with value type
`vt`, the check accepts `int` into `float`, rejects `float` into `int`
with 'Cannot assign float to int without explicit cast', and otherwise
accepts exactly when the types are equal; assignment enforces the same
acceptance rules against the looked-up declared type. -/
theorem c6_theorem :
    (∀ (f : Nat) (ty name : String) (init : Expr) (tbl tbl2 : SymbolTable) (vt : String),
      declareVar tbl name ty = .ok tbl2 →
      checkExpr init tbl2 = .ok () →
      getType init tbl2 = .ok vt →
      checkStmt (Nat.succ f) (.varDecl ty name (some init)) tbl =
        (if vt = "int" ∧ ty = "float" then .ok tbl2
         else if vt = "float" ∧ ty = "int" then
           .error "Cannot assign float to int without explicit cast"
         else if vt = ty then .ok tbl2
         else .error ("Type mismatch: Cannot initialize variable of type '" ++ ty ++
                      "' with value of type '" ++ vt ++ "'"))) ∧
    (∀ (f : Nat) (name : String) (value : Expr) (tbl : SymbolTable) (ty vt : String),
      checkExpr value tbl = .ok () →
      lookupVarE tbl name = .ok ty →
      getType value tbl = .ok vt →
      checkStmt (Nat.succ f) (.assign name value) tbl =
        (if vt = "int" ∧ ty = "float" then .ok tbl
         else if vt = "float" ∧ ty = "int" then
           .error "Cannot assign float to int without explicit cast"
         else if vt = ty then .ok tbl
         else .error ("Type mismatch in assignment: Cannot assign " ++ vt ++ " to " ++ ty))) := by
  constructor
  · intro f ty name init tbl tbl2 vt hd hc hg
    rw [checkStmt]
    simp only [hd, hc, hg, Except.bind, bind]
    split_ifs with h1 h2 h3 <;> simp_all
    obtain ⟨hA, hB⟩ := ‹ty = "float" ∧ ty = "int"›
    rw [hA] at hB
    exact absurd hB (by decide)
  · intro f name value tbl ty vt hc hl hg
    rw [checkStmt]
    simp only [hc, hl, hg, Except.bind, bind]
    split_ifs with h1 h2 h3 <;> simp_all
    obtain ⟨hA, hB⟩ := ‹ty = "float" ∧ ty = "int"›
    rw [hA] at hB
    exact absurd hB (by decide)

/-- Witness for C6: `float y = 3;` is accepted (int promoted to float),
and so is the assignment `y = 3;` afterwards. -/
theorem c6_witness :
    checkStmt 1 (.varDecl "float" "y" (some (.lit "3"))) [] = .ok [("y", "float")] ∧
    checkStmt 1 (.assign "y" (.lit "3")) [("y", "float")] = .ok [("y", "float")] := by
  constructor
  · have := c6_theorem.1 0 "float" "y" (.lit "3") [] [("y", "float")] "int"
      (by decide) (by decide) (by decide)
    simpa using this
  · have := c6_theorem.2 0 "y" (.lit "3") [("y", "float")] "float" "int"
      (by decide) (by decide) (by decide)
    simpa using this

/-- Claim C7: the parameter loop accepts a parameter only from two
consecutive `Identifier` tokens: a `Keyword` token (the lexer's
classification of `int`/`float`/`char`/`std::string`) at parameter-type
position is a fatal error, a non-`Identifier` after the type is a fatal
error, and the literal declaration `int f(int a, int b) { ... }` dies
with 'Expected parameter type in function declaration'. -/
theorem c7_theorem :
    (∀ (f : Nat) (ts : List Token) (i : Nat) (acc : List String),
      (currentToken ts i).type = .Keyword →
      parseParams (Nat.succ f) ts i acc =
        .error "Expected parameter type in function declaration") ∧
    (∀ (f : Nat) (ts : List Token) (i : Nat) (acc : List String),
      (currentToken ts i).type = .Identifier →
      (currentToken ts (advanceI ts i)).type ≠ .Identifier →
      parseParams (Nat.succ f) ts i acc =
        .error "Expected parameter name after type in function declaration") ∧
    compile "int f(int a, int b) \x7b return a + b; \x7d" =
      .error "Expected parameter type in function declaration" := by
  refine ⟨?_, ?_, ?_⟩
  · intro f ts i acc h
    rw [parseParams]
    simp [h]
  · intro f ts i acc h1 h2
    rw [parseParams]
    simp [h1, h2]
  · exact compile_err_parse _ tsC7 _ (by decide) rfl

/-- Witness for C7: a parameter list starting with the `Keyword` token
`int` is rejected by the parameter loop. -/
theorem c7_witness :
    parseParams 1 [⟨.Keyword, "int", 1, 1⟩] 0 [] =
      .error "Expected parameter type in function declaration" :=
  c7_theorem.1 0 [⟨.Keyword, "int", 1, 1⟩] 0 [] (by decide)

/-- Claim C10: checking a `Return` only checks its value expression,
which for every expression succeeds exactly when all referenced
variables are declared (no type is ever computed); hence
`{ int x = 1; char c = 'a'; return x + c; }` compiles and lowers to IR,
while the same expression is fatal both for `getType` and as an
initializer. -/
theorem c10_theorem :
    (∀ (f : Nat) (e : Expr) (tbl : SymbolTable),
      checkStmt (Nat.succ f) (.ret (some e)) tbl =
        (match checkExpr e tbl with
         | .ok _ => .ok tbl
         | .error er => .error er)) ∧
    (∀ (e : Expr) (tbl : SymbolTable),
      checkExpr e tbl = .ok () ↔ ∀ v ∈ exprVars e, lookupVar tbl v ≠ none) ∧
    compile "\x7b int x = 1; char c = 'a'; return x + c; \x7d" =
      .ok [⟨"MOV", "1", "", "x"⟩, ⟨"MOV", "'a'", "", "c"⟩, ⟨"+", "x", "c", "t0"⟩,
           ⟨"RET", "t0", "", ""⟩] ∧
    getType (.bin (.var "x") .add (.var "c")) [("c", "char"), ("x", "int")] =
      .error "Type mismatch in binary expression: int + char" ∧
    checkStmt 2 (.varDecl "int" "y" (some (.bin (.var "x") .add (.var "c"))))
        [("c", "char"), ("x", "int")] =
      .error "Type mismatch in binary expression: int + char" := by
  refine ⟨?_, ?_, ?_, by decide, by decide⟩
  · intro f e tbl
    rw [checkStmt]
    cases h : checkExpr e tbl <;> simp [Except.bind, bind, h]
  · intro e tbl
    induction e with
    | lit v => simp [checkExpr, exprVars]
    | var n =>
      simp only [checkExpr, exprVars, List.mem_singleton]
      cases h : lookupVar tbl n <;> simp [h]
    | bin l op r ihl ihr =>
      simp only [checkExpr, exprVars, Except.bind, bind]
      cases h : checkExpr l tbl with
      | error e2 =>
        simp only [h] at ihl
        have hnp : ¬ ∀ v ∈ exprVars l, lookupVar tbl v ≠ none := by
          rw [← ihl]
          simp
        push_neg at hnp
        obtain ⟨v, hv, hnone⟩ := hnp
        simp only [List.mem_append, ne_eq]
        constructor
        · intro hcontra
          exact absurd hcontra (by simp)
        · intro hall
          exact absurd (hall v (Or.inl hv)) (by simp [hnone])
      | ok u =>
        cases u
        simp only [h] at ihl
        have hl := ihl.mp trivial
        rw [ihr]
        constructor
        · intro hr v hv
          rcases List.mem_append.mp hv with hvl | hvr
          · exact hl v hvl
          · exact hr v hvr
        · intro hall v hv
          exact hall v (List.mem_append.mpr (Or.inr hv))
  · rw [compile_ok_of _ tsC10 astC10 17 [("c", "char"), ("x", "int")] (by decide) rfl (by decide)]
    decide

/-- Witness for C10: `x + c` with both variables declared passes
`checkExpr` — declaredness is the only requirement. -/
theorem c10_witness :
    checkExpr (.bin (.var "x") .add (.var "c")) [("c", "char"), ("x", "int")] = .ok () :=
  (c10_theorem.2.1 (.bin (.var "x") .add (.var "c")) [("c", "char"), ("x", "int")]).mpr
    (by decide)

/-- `generateExpression` only appends to the instruction buffer. -/
theorem genExpr_code_mono : ∀ (e : Expr) (st : GenSt), ∃ d, (genExpr e st).2.code = st.code ++ d := by
  intro e
  induction e with
  | lit v => intro st; exact ⟨[], by simp [genExpr]⟩
  | var n => intro st; exact ⟨[], by simp [genExpr]⟩
  | bin l op r ihl ihr =>
    intro st
    obtain ⟨d1, h1⟩ := ihl st
    obtain ⟨d2, h2⟩ := ihr (genExpr l st).2
    refine ⟨d1 ++ d2 ++ [⟨opToString op, (genExpr l st).1, (genExpr r (genExpr l st).2).1,
      tName (genExpr r (genExpr l st).2).2.tempCnt⟩], ?_⟩
    rw [genExpr]
    simp only [h2, h1]
    simp [List.append_assoc]

/-- `generateStatement` and the two statement loops only append to the
instruction buffer. -/
theorem gen_code_mono : ∀ (f : Nat),
    (∀ (s : Stmt) (st : GenSt), ∃ d, (genStmt f s st).code = st.code ++ d) ∧
    (∀ (l : List Stmt) (st : GenSt), ∃ d, (genStmtList f l st).code = st.code ++ d) ∧
    (∀ (l : List Stmt) (st : GenSt), ∃ d, (genBody f l st).code = st.code ++ d) := by
  intro f
  induction f with
  | zero =>
    exact ⟨fun s st => ⟨[], by simp [genStmt]⟩, fun l st => ⟨[], by simp [genStmtList]⟩,
           fun l st => ⟨[], by simp [genBody]⟩⟩
  | succ f ih =>
    obtain ⟨ihS, ihL, ihB⟩ := ih
    refine ⟨?_, ?_, ?_⟩
    · intro s st
      match s with
      | .varDecl ty name none => exact ⟨[], by simp [genStmt]⟩
      | .varDecl ty name (some init) =>
        obtain ⟨d, h⟩ := genExpr_code_mono init st
        exact ⟨d ++ [⟨"MOV", (genExpr init st).1, "", name⟩], by rw [genStmt]; simp [emit, h]⟩
      | .assign name value =>
        obtain ⟨d, h⟩ := genExpr_code_mono value st
        exact ⟨d ++ [⟨"MOV", (genExpr value st).1, "", name⟩], by rw [genStmt]; simp [emit, h]⟩
      | .ifStmt cond thenB elseO =>
        obtain ⟨d1, h1⟩ := genExpr_code_mono cond st
        obtain ⟨d2, h2⟩ := ihS thenB (emit (genExpr cond st).2 ⟨"IF_FALSE", (genExpr cond st).1, "", "L1"⟩)
        match elseO with
        | none =>
          refine ⟨d1 ++ [⟨"IF_FALSE", (genExpr cond st).1, "", "L1"⟩] ++ d2 ++
            [⟨"GOTO", "", "", "L2"⟩, ⟨"LABEL", "", "", "L1"⟩, ⟨"LABEL", "", "", "L2"⟩], ?_⟩
          rw [genStmt]
          simp only [emit] at h2 ⊢
          rw [h2, h1]
          simp [List.append_assoc]
        | some e =>
          obtain ⟨d3, h3⟩ := ihS e (emit (emit (genStmt f thenB (emit (genExpr cond st).2
            ⟨"IF_FALSE", (genExpr cond st).1, "", "L1"⟩)) ⟨"GOTO", "", "", "L2"⟩) ⟨"LABEL", "", "", "L1"⟩)
          refine ⟨d1 ++ [⟨"IF_FALSE", (genExpr cond st).1, "", "L1"⟩] ++ d2 ++
            [⟨"GOTO", "", "", "L2"⟩, ⟨"LABEL", "", "", "L1"⟩] ++ d3 ++ [⟨"LABEL", "", "", "L2"⟩], ?_⟩
          rw [genStmt]
          simp only [emit] at h2 h3 ⊢
          rw [h3, h2, h1]
          simp [List.append_assoc]
      | .block stmts => exact ihL stmts st
      | .ret none => exact ⟨[⟨"RET", "", "", ""⟩], by rw [genStmt]; simp [emit]⟩
      | .ret (some v) =>
        obtain ⟨d, h⟩ := genExpr_code_mono v st
        exact ⟨d ++ [⟨"RET", (genExpr v st).1, "", ""⟩], by rw [genStmt]; simp [emit, h]⟩
      | .funcDecl rt name ps body =>
        obtain ⟨d1, h1⟩ := ihB body (emit st ⟨"LABEL", "", "", name⟩)
        simp only [emit] at h1
        rw [genStmt]
        match hlast : (genBody f body (emit st ⟨"LABEL", "", "", name⟩)).code.getLast? with
        | none =>
          refine ⟨[⟨"LABEL", "", "", name⟩] ++ d1 ++ [⟨"RET", "", "", ""⟩], ?_⟩
          simp only [emit, h1]
          simp [List.append_assoc]
        | some ins =>
          simp only [emit]
          by_cases hret : ins.op = "RET"
          · rw [if_neg (by simp [hret])]
            exact ⟨[⟨"LABEL", "", "", name⟩] ++ d1, by rw [h1]; simp [List.append_assoc]⟩
          · rw [if_pos hret]
            refine ⟨[⟨"LABEL", "", "", name⟩] ++ d1 ++ [⟨"RET", "", "", ""⟩], ?_⟩
            simp only [emit, h1]
            simp [List.append_assoc]
    · intro l st
      match l with
      | [] => exact ⟨[], by simp [genStmtList]⟩
      | s :: rest =>
        obtain ⟨d1, h1⟩ := ihS s st
        obtain ⟨d2, h2⟩ := ihL rest (genStmt f s st)
        exact ⟨d1 ++ d2, by rw [genStmtList]; rw [h2, h1]; simp [List.append_assoc]⟩
    · intro l st
      match l with
      | [] => exact ⟨[], by simp [genBody]⟩
      | s :: rest =>
        obtain ⟨d1, h1⟩ := ihS s st
        obtain ⟨d2, h2⟩ := ihB rest (genStmt f s st)
        rw [genBody]
        match hlast : (genStmt f s st).code.getLast? with
        | none => exact ⟨d1 ++ d2, by rw [h2, h1]; simp [List.append_assoc]⟩
        | some ins =>
          simp only
          by_cases hret : ins.op = "RET"
          · rw [if_pos hret]
            exact ⟨d1, h1⟩
          · rw [if_neg hret]
            exact ⟨d1 ++ d2, by rw [h2, h1]; simp [List.append_assoc]⟩


/-- `emplace_back` appends one instruction. -/
theorem emit_code (st : GenSt) (i : TAC) : (emit st i).code = st.code ++ [i] := rfl

/-- Claim C4: lowering an `If` emits the condition's code (the delta
`d1`), then `IF_FALSE c "" L1`, then the then-branch's code (`d2`), then
`GOTO "" "" L2` and `LABEL "" "" L1`, then the else-branch's code
(`d3`, empty when there is no else), then `LABEL "" "" L2`; the label
operands are the literal strings `L1` and `L2` for every `If` statement,
never made unique. -/
theorem c4_theorem :
    ∀ (f : Nat) (cond : Expr) (thenB : Stmt) (elseO : Option Stmt) (st : GenSt),
    ∃ d1 d2 d3,
      (genExpr cond st).2.code = st.code ++ d1 ∧
      (genStmt f thenB (emit (genExpr cond st).2
          ⟨"IF_FALSE", (genExpr cond st).1, "", "L1"⟩)).code =
        st.code ++ d1 ++ [⟨"IF_FALSE", (genExpr cond st).1, "", "L1"⟩] ++ d2 ∧
      (elseO = none → d3 = []) ∧
      (∀ e, elseO = some e →
        (genStmt f e (emit (emit (genStmt f thenB (emit (genExpr cond st).2
            ⟨"IF_FALSE", (genExpr cond st).1, "", "L1"⟩)) ⟨"GOTO", "", "", "L2"⟩)
            ⟨"LABEL", "", "", "L1"⟩)).code =
          st.code ++ d1 ++ [⟨"IF_FALSE", (genExpr cond st).1, "", "L1"⟩] ++ d2 ++
          [⟨"GOTO", "", "", "L2"⟩, ⟨"LABEL", "", "", "L1"⟩] ++ d3) ∧
      (genStmt (Nat.succ f) (.ifStmt cond thenB elseO) st).code =
        st.code ++ d1 ++ [⟨"IF_FALSE", (genExpr cond st).1, "", "L1"⟩] ++ d2 ++
        [⟨"GOTO", "", "", "L2"⟩, ⟨"LABEL", "", "", "L1"⟩] ++ d3 ++
        [⟨"LABEL", "", "", "L2"⟩] := by
  intro f cond thenB elseO st
  obtain ⟨d1, h1⟩ := genExpr_code_mono cond st
  obtain ⟨d2, h2⟩ := (gen_code_mono f).1 thenB
    (emit (genExpr cond st).2 ⟨"IF_FALSE", (genExpr cond st).1, "", "L1"⟩)
  have h2' : (genStmt f thenB (emit (genExpr cond st).2
      ⟨"IF_FALSE", (genExpr cond st).1, "", "L1"⟩)).code =
      st.code ++ d1 ++ [⟨"IF_FALSE", (genExpr cond st).1, "", "L1"⟩] ++ d2 := by
    rw [h2]
    simp only [emit_code]
    rw [h1]
  cases elseO with
  | none =>
    refine ⟨d1, d2, [], h1, h2', fun _ => rfl, fun e he => absurd he (by simp), ?_⟩
    have hun : genStmt (Nat.succ f) (.ifStmt cond thenB (none : Option Stmt)) st =
        emit (emit (emit (genStmt f thenB (emit (genExpr cond st).2
          ⟨"IF_FALSE", (genExpr cond st).1, "", "L1"⟩)) ⟨"GOTO", "", "", "L2"⟩)
          ⟨"LABEL", "", "", "L1"⟩) ⟨"LABEL", "", "", "L2"⟩ := rfl
    rw [hun]
    simp only [emit_code]
    rw [h2']
    simp [List.append_assoc]
  | some e =>
    obtain ⟨d3, h3⟩ := (gen_code_mono f).1 e (emit (emit (genStmt f thenB
      (emit (genExpr cond st).2 ⟨"IF_FALSE", (genExpr cond st).1, "", "L1"⟩))
      ⟨"GOTO", "", "", "L2"⟩) ⟨"LABEL", "", "", "L1"⟩)
    have h3' : (genStmt f e (emit (emit (genStmt f thenB (emit (genExpr cond st).2
        ⟨"IF_FALSE", (genExpr cond st).1, "", "L1"⟩)) ⟨"GOTO", "", "", "L2"⟩)
        ⟨"LABEL", "", "", "L1"⟩)).code =
        st.code ++ d1 ++ [⟨"IF_FALSE", (genExpr cond st).1, "", "L1"⟩] ++ d2 ++
        [⟨"GOTO", "", "", "L2"⟩, ⟨"LABEL", "", "", "L1"⟩] ++ d3 := by
      rw [h3]
      simp only [emit_code]
      rw [h2']
      simp [List.append_assoc]
    refine ⟨d1, d2, d3, h1, h2', fun hc => absurd hc (by simp),
      fun e2 he2 => by rw [Option.some.injEq] at he2; subst he2; exact h3', ?_⟩
    have hun : genStmt (Nat.succ f) (.ifStmt cond thenB (some e)) st =
        emit (genStmt f e (emit (emit (genStmt f thenB (emit (genExpr cond st).2
          ⟨"IF_FALSE", (genExpr cond st).1, "", "L1"⟩)) ⟨"GOTO", "", "", "L2"⟩)
          ⟨"LABEL", "", "", "L1"⟩)) ⟨"LABEL", "", "", "L2"⟩ := rfl
    rw [hun]
    simp only [emit_code]
    rw [h3']


/-- Witness for C4: a concrete if/else over literals lowers to exactly
the claimed shape with literal labels `L1`/`L2`. -/
theorem c4_witness :
    (genStmt 2 (.ifStmt (.lit "1") (.assign "x" (.lit "2")) (some (.assign "x" (.lit "3"))))
        ⟨[], 0⟩).code =
      [⟨"IF_FALSE", "1", "", "L1"⟩, ⟨"MOV", "2", "", "x"⟩, ⟨"GOTO", "", "", "L2"⟩,
       ⟨"LABEL", "", "", "L1"⟩, ⟨"MOV", "3", "", "x"⟩, ⟨"LABEL", "", "", "L2"⟩] := by
  obtain ⟨d1, d2, d3, h1, h2, h3, h4, h5⟩ :=
    c4_theorem 1 (.lit "1") (.assign "x" (.lit "2")) (some (.assign "x" (.lit "3"))) ⟨[], 0⟩
  have e1 : d1 = [] := by simpa [genExpr] using h1.symm
  subst e1
  have hL2 : (genStmt 1 (.assign "x" (.lit "2")) (emit (genExpr (.lit "1") ⟨[], 0⟩).2
      ⟨"IF_FALSE", (genExpr (.lit "1") (⟨[], 0⟩ : GenSt)).1, "", "L1"⟩)).code =
      [⟨"IF_FALSE", "1", "", "L1"⟩, ⟨"MOV", "2", "", "x"⟩] := by decide
  rw [hL2] at h2
  simp only [List.nil_append, List.append_nil] at h2
  have e2 : d2 = [⟨"MOV", "2", "", "x"⟩] := by
    have hc := h2
    simp at hc
    exact hc.2.symm
  subst e2
  have hL3 : (genStmt 1 (.assign "x" (.lit "3")) (emit (emit (genStmt 1 (.assign "x" (.lit "2"))
      (emit (genExpr (.lit "1") ⟨[], 0⟩).2
        ⟨"IF_FALSE", (genExpr (.lit "1") (⟨[], 0⟩ : GenSt)).1, "", "L1"⟩))
      ⟨"GOTO", "", "", "L2"⟩) ⟨"LABEL", "", "", "L1"⟩)).code =
      [⟨"IF_FALSE", "1", "", "L1"⟩, ⟨"MOV", "2", "", "x"⟩, ⟨"GOTO", "", "", "L2"⟩,
       ⟨"LABEL", "", "", "L1"⟩, ⟨"MOV", "3", "", "x"⟩] := by decide
  have h4' := h4 (.assign "x" (.lit "3")) rfl
  rw [hL3] at h4'
  have e3 : d3 = [⟨"MOV", "3", "", "x"⟩] := by
    have hc := h4'
    simp at hc
    exact hc.2.symm
  subst e3
  have hfin := h5
  simp only [List.nil_append] at hfin
  rw [show (2 : Nat) = Nat.succ 1 from rfl]
  rw [hfin]
  decide



/-- `digitChar` is inverted by `digitVal` on decimal digits. -/
theorem digitVal_digitChar : ∀ d, d < 10 → digitVal (digitChar d) = d := by
  intro d hd
  interval_cases d <;> rfl

/-- `natDigits` ignores the fuel as long as it exceeds the argument. -/
theorem natDigits_fuel : ∀ n f g, n < f → n < g → natDigits f n = natDigits g n := by
  intro n
  induction n using Nat.strong_induction_on with
  | _ n ih =>
    intro f g hf hg
    match f, g with
    | Nat.succ f, Nat.succ g =>
      rw [natDigits, natDigits]
      by_cases h : n < 10
      · simp [h]
      · simp only [h, if_false]
        have hrec : natDigits f (n / 10) = natDigits g (n / 10) := by
          have hlt : n / 10 < n := Nat.div_lt_self (by omega) (by omega)
          exact ih (n / 10) hlt f g (by omega) (by omega)
        rw [hrec]

/-- Unfolding of the canonical digit list of `n`. -/
theorem natDigits_step (n : Nat) :
    natDigits (n + 1) n =
      if n < 10 then [digitChar n]
      else natDigits (n / 10 + 1) (n / 10) ++ [digitChar (n % 10)] := by
  rw [natDigits]
  by_cases h : n < 10
  · simp [h]
  · simp only [h, if_false]
    have : natDigits n (n / 10) = natDigits (n / 10 + 1) (n / 10) := by
      have hlt : n / 10 < n := Nat.div_lt_self (by omega) (by omega)
      exact natDigits_fuel (n / 10) n (n / 10 + 1) (by omega) (by omega)
    rw [this]

/-- The canonical digit list is never empty. -/
theorem natDigits_ne_nil (n : Nat) : natDigits (n + 1) n ≠ [] := by
  rw [natDigits_step]
  by_cases h : n < 10 <;> simp [h]

/-- Decimal printing of naturals is injective. -/
theorem natRepr_inj : ∀ m n, natRepr m = natRepr n → m = n := by
  have key : ∀ m n, natDigits (m + 1) m = natDigits (n + 1) n → m = n := by
    intro m
    induction m using Nat.strong_induction_on with
    | _ m ih =>
      intro n h
      rw [natDigits_step m, natDigits_step n] at h
      by_cases hm : m < 10 <;> by_cases hn : n < 10
      · rw [if_pos hm, if_pos hn] at h
        have hc : digitChar m = digitChar n := by
          simpa using h
        have hv := congrArg digitVal hc
        rw [digitVal_digitChar m hm, digitVal_digitChar n hn] at hv
        exact hv
      · rw [if_pos hm, if_neg hn] at h
        have hlen := congrArg List.length h
        simp only [List.length_singleton, List.length_append] at hlen
        have hne := natDigits_ne_nil (n / 10)
        rw [← List.length_pos_iff_ne_nil] at hne
        omega
      · rw [if_neg hm, if_pos hn] at h
        have hlen := congrArg List.length h
        simp only [List.length_singleton, List.length_append] at hlen
        have hne := natDigits_ne_nil (m / 10)
        rw [← List.length_pos_iff_ne_nil] at hne
        omega
      · rw [if_neg hm, if_neg hn] at h
        have h1 : natDigits (m / 10 + 1) (m / 10) = natDigits (n / 10 + 1) (n / 10) := by
          have := congrArg List.dropLast h
          rwa [List.dropLast_concat, List.dropLast_concat] at this
        have h2 : digitChar (m % 10) = digitChar (n % 10) := by
          have := congrArg List.getLast? h
          rw [List.getLast?_concat, List.getLast?_concat] at this
          simpa using this
        have hdiv : m / 10 = n / 10 :=
          ih (m / 10) (Nat.div_lt_self (by omega) (by omega)) (n / 10) h1
        have hmod : m % 10 = n % 10 := by
          have hv := congrArg digitVal h2
          rw [digitVal_digitChar _ (Nat.mod_lt _ (by omega)),
              digitVal_digitChar _ (Nat.mod_lt _ (by omega))] at hv
          exact hv
        omega
  intro m n h
  apply key
  have hd : (natRepr m).data = (natRepr n).data := by rw [h]
  simpa [natRepr] using hd

/-- The characters of a temporary name. -/
theorem tName_data (n : Nat) : (tName n).data = 't' :: natDigits (n + 1) n := rfl

/-- `getNewTempVar` names are pairwise distinct. -/
theorem tName_inj : ∀ m n, tName m = tName n → m = n := by
  intro m n h
  apply natRepr_inj
  have hd := congrArg String.data h
  rw [tName_data, tName_data] at hd
  have hdig : natDigits (m + 1) m = natDigits (n + 1) n := by
    simpa using hd
  apply String.ext
  simpa [natRepr]

/-- A string that does not start with `t` is not a temporary name. -/
theorem ne_tName_of_head : ∀ (s : String), s.data.head? ≠ some 't' → ∀ n, s ≠ tName n := by
  intro s hs n h
  rw [h] at hs
  simp [tName_data] at hs

/-- The empty operand is not a temporary name. -/
theorem empty_ne_tName : ∀ n, "" ≠ tName n :=
  ne_tName_of_head "" (by decide)

/-- The literal label `L1` is not a temporary name. -/
theorem L1_ne_tName : ∀ n, "L1" ≠ tName n :=
  ne_tName_of_head "L1" (by decide)

/-- The literal label `L2` is not a temporary name. -/
theorem L2_ne_tName : ∀ n, "L2" ≠ tName n :=
  ne_tName_of_head "L2" (by decide)

/-- Binary-operator opcodes are disjoint from the statement opcodes. -/
theorem opToString_not_stmtOp : ∀ op, opToString op ∉ stmtOps := by
  intro op
  cases op <;> decide


/-- Indexing an extended buffer below the old length reads the old buffer. -/
theorem getAppendLeft {α : Type} (l : List α) (a : α) (i : Nat) (h : i < l.length)
    (h2 : i < (l ++ [a]).length) : (l ++ [a]).get ⟨i, h2⟩ = l.get ⟨i, h⟩ :=
  List.get_append i h

/-- Indexing an extended buffer at the old length reads the new instruction. -/
theorem getLastAppend {α : Type} (l : List α) (a : α)
    (h : l.length < (l ++ [a]).length) : (l ++ [a]).get ⟨l.length, h⟩ = a :=
  List.get_of_append rfl rfl

/-- A non-temporary operand is always sound. -/
theorem ResOK_of_ne (code : List TAC) (r : String) (h : ∀ n, r ≠ tName n) : ResOK code r :=
  fun n hr => absurd hr (h n)

/-- Operand soundness survives appending instructions. -/
theorem ResOK_append (code : List TAC) (r : String) (d : List TAC)
    (h : ResOK code r) : ResOK (code ++ d) r := by
  intro n hr
  obtain ⟨i, hi, hres⟩ := h n hr
  refine ⟨i, by simp; omega, ?_⟩
  rw [List.get_append i hi]
  exact hres

/-- Appending one instruction preserves the generator invariant when its
result is either no temporary at all or the freshly allocated temporary
on a binary-operator instruction, and both arguments are sound. -/
theorem TempInv_emit (code : List TAC) (cnt : Nat) (ins : TAC) (cnt2 : Nat)
    (hInv : TempInv code cnt) (hcnt : cnt ≤ cnt2)
    (hres : (∀ n, ins.result ≠ tName n) ∨
      (ins.result = tName cnt ∧ cnt2 = cnt + 1 ∧ ins.op ∉ stmtOps))
    (ha1 : ResOK code ins.arg1) (ha2 : ResOK code ins.arg2) :
    TempInv (code ++ [ins]) cnt2 := by
  obtain ⟨A, B, C⟩ := hInv
  have hlen : (code ++ [ins]).length = code.length + 1 := by simp
  refine ⟨?_, ?_, ?_⟩
  · intro i hi n hr
    by_cases hil : i < code.length
    · rw [getAppendLeft code ins i hil] at hr
      obtain ⟨hn, hop⟩ := A i hil n hr
      rw [getAppendLeft code ins i hil]
      exact ⟨by omega, hop⟩
    · have hieq : i = code.length := by omega
      subst hieq
      rw [getLastAppend code ins] at hr
      rcases hres with hne | ⟨hr2, hc2, hop⟩
      · exact absurd hr (hne n)
      · rw [hr2] at hr
        have hn := tName_inj _ _ hr
        rw [getLastAppend code ins]
        exact ⟨by omega, hop⟩
  · intro n i j hi hj hri hrj
    by_cases hil : i < code.length <;> by_cases hjl : j < code.length
    · rw [getAppendLeft code ins i hil] at hri
      rw [getAppendLeft code ins j hjl] at hrj
      exact B n i j hil hjl hri hrj
    · have hjeq : j = code.length := by omega
      subst hjeq
      rw [getAppendLeft code ins i hil] at hri
      rw [getLastAppend code ins] at hrj
      obtain ⟨hn, _⟩ := A i hil n hri
      rcases hres with hne | ⟨hr2, hc2, _⟩
      · exact absurd hrj (hne n)
      · rw [hr2] at hrj
        have := tName_inj _ _ hrj
        omega
    · have hieq : i = code.length := by omega
      subst hieq
      rw [getAppendLeft code ins j hjl] at hrj
      rw [getLastAppend code ins] at hri
      obtain ⟨hn, _⟩ := A j hjl n hrj
      rcases hres with hne | ⟨hr2, hc2, _⟩
      · exact absurd hri (hne n)
      · rw [hr2] at hri
        have := tName_inj _ _ hri
        omega
    · omega
  · intro n j hj harg
    by_cases hjl : j < code.length
    · rw [getAppendLeft code ins j hjl] at harg
      obtain ⟨i, hi, hlt, hres2⟩ := C n j hjl harg
      refine ⟨i, by omega, hlt, ?_⟩
      rw [getAppendLeft code ins i hi]
      exact hres2
    · have hjeq : j = code.length := by omega
      subst hjeq
      rw [getLastAppend code ins] at harg
      have hdef : ∃ i, ∃ hi : i < code.length, (code.get ⟨i, hi⟩).result = tName n := by
        rcases harg with h1 | h2
        · obtain ⟨i, hi, hr⟩ := ha1 n h1
          exact ⟨i, hi, by rw [hr, ← h1]⟩
        · obtain ⟨i, hi, hr⟩ := ha2 n h2
          exact ⟨i, hi, by rw [hr, ← h2]⟩
      obtain ⟨i, hi, hr⟩ := hdef
      refine ⟨i, by omega, by omega, ?_⟩
      rw [getAppendLeft code ins i hi]
      exact hr



/-- Emitting a non-expression instruction (result not a temporary)
preserves the invariant and the counter. -/
theorem TempInv_emit_plain (st : GenSt) (ins : TAC)
    (hInv : TempInv st.code st.tempCnt) (hres : ∀ n, ins.result ≠ tName n)
    (ha1 : ResOK st.code ins.arg1) (ha2 : ResOK st.code ins.arg2) :
    TempInv (emit st ins).code (emit st ins).tempCnt :=
  TempInv_emit st.code st.tempCnt ins st.tempCnt hInv (le_refl _) (Or.inl hres) ha1 ha2

/-- The empty operand is sound. -/
theorem ResOK_empty (code : List TAC) : ResOK code "" :=
  ResOK_of_ne code "" empty_ne_tName

/-- `generateExpression` preserves the generator invariant, never
decreases the counter, and returns a sound result operand, provided no
literal spelling or variable name in the expression is a temporary
name. -/
theorem genExpr_good : ∀ (e : Expr) (st : GenSt),
    (∀ n, tName n ∉ exprNames e) → TempInv st.code st.tempCnt →
    TempInv (genExpr e st).2.code (genExpr e st).2.tempCnt ∧
    st.tempCnt ≤ (genExpr e st).2.tempCnt ∧
    ResOK (genExpr e st).2.code (genExpr e st).1 := by
  intro e
  induction e with
  | lit v =>
    intro st hn hInv
    refine ⟨hInv, le_refl _, ResOK_of_ne _ _ ?_⟩
    intro n hv
    have hv2 : v = tName n := hv
    exact absurd (List.mem_singleton.mpr hv2.symm) (hn n)
  | var v =>
    intro st hn hInv
    refine ⟨hInv, le_refl _, ResOK_of_ne _ _ ?_⟩
    intro n hv
    have hv2 : v = tName n := hv
    exact absurd (List.mem_singleton.mpr hv2.symm) (hn n)
  | bin l op r ihl ihr =>
    intro st hn hInv
    have hnl : ∀ n, tName n ∉ exprNames l := by
      intro n hc
      exact hn n (by simp [exprNames, hc])
    have hnr : ∀ n, tName n ∉ exprNames r := by
      intro n hc
      exact hn n (by simp [exprNames, hc])
    obtain ⟨inv1, mono1, res1⟩ := ihl st hnl hInv
    obtain ⟨inv2, mono2, res2⟩ := ihr (genExpr l st).2 hnr inv1
    obtain ⟨d2, hd2⟩ := genExpr_code_mono r (genExpr l st).2
    have res1b : ResOK (genExpr r (genExpr l st).2).2.code (genExpr l st).1 := by
      rw [hd2]
      exact ResOK_append _ _ _ res1
    refine ⟨?_, ?_, ?_⟩
    · show TempInv ((genExpr r (genExpr l st).2).2.code ++
        [⟨opToString op, (genExpr l st).1, (genExpr r (genExpr l st).2).1,
          tName (genExpr r (genExpr l st).2).2.tempCnt⟩])
        ((genExpr r (genExpr l st).2).2.tempCnt + 1)
      exact TempInv_emit _ _ _ _ inv2 (by omega)
        (Or.inr ⟨rfl, rfl, opToString_not_stmtOp op⟩) res1b res2
    · show st.tempCnt ≤ (genExpr r (genExpr l st).2).2.tempCnt + 1
      omega
    · show ResOK ((genExpr r (genExpr l st).2).2.code ++
        [⟨opToString op, (genExpr l st).1, (genExpr r (genExpr l st).2).1,
          tName (genExpr r (genExpr l st).2).2.tempCnt⟩])
        (tName (genExpr r (genExpr l st).2).2.tempCnt)
      intro n hname
      refine ⟨(genExpr r (genExpr l st).2).2.code.length, by simp, ?_⟩
      rw [getLastAppend]

/-- `generateStatement` and both statement loops preserve the generator
invariant and never decrease the counter, provided no name in the
statements is a temporary name. -/
theorem genStmt_good : ∀ f : Nat,
    (∀ (s : Stmt) (st : GenSt),
      (∀ n, tName n ∉ stmtNames f s) → TempInv st.code st.tempCnt →
      TempInv (genStmt f s st).code (genStmt f s st).tempCnt ∧
        st.tempCnt ≤ (genStmt f s st).tempCnt) ∧
    (∀ (l : List Stmt) (st : GenSt),
      (∀ n, tName n ∉ stmtNamesList f l) → TempInv st.code st.tempCnt →
      TempInv (genStmtList f l st).code (genStmtList f l st).tempCnt ∧
        st.tempCnt ≤ (genStmtList f l st).tempCnt) ∧
    (∀ (l : List Stmt) (st : GenSt),
      (∀ n, tName n ∉ stmtNamesList f l) → TempInv st.code st.tempCnt →
      TempInv (genBody f l st).code (genBody f l st).tempCnt ∧
        st.tempCnt ≤ (genBody f l st).tempCnt) := by
  intro f
  induction f with
  | zero =>
    refine ⟨?_, ?_, ?_⟩
    · intro s st _ hInv
      exact ⟨hInv, le_refl _⟩
    · intro l st _ hInv
      exact ⟨hInv, le_refl _⟩
    · intro l st _ hInv
      exact ⟨hInv, le_refl _⟩
  | succ f ih =>
    obtain ⟨ihS, ihL, ihB⟩ := ih
    have hStmt : ∀ (s : Stmt) (st : GenSt),
        (∀ n, tName n ∉ stmtNames (Nat.succ f) s) → TempInv st.code st.tempCnt →
        TempInv (genStmt (Nat.succ f) s st).code (genStmt (Nat.succ f) s st).tempCnt ∧
          st.tempCnt ≤ (genStmt (Nat.succ f) s st).tempCnt := by
      intro s st hn hInv
      match s with
      | .varDecl ty name none => exact ⟨hInv, le_refl _⟩
      | .varDecl ty name (some init) =>
        have hn2 : ∀ n, tName n ∉ name :: exprNames init := hn
        have hname : ∀ n, name ≠ tName n := by
          intro n hc
          exact hn2 n (by rw [← hc]; exact List.mem_cons_self _ _)
        have hninit : ∀ n, tName n ∉ exprNames init := by
          intro n hc
          exact hn2 n (List.mem_cons_of_mem _ hc)
        obtain ⟨inv1, mono1, res1⟩ := genExpr_good init st hninit hInv
        have step := TempInv_emit_plain (genExpr init st).2
          ⟨"MOV", (genExpr init st).1, "", name⟩ inv1 hname res1 (ResOK_empty _)
        exact ⟨step, mono1⟩
      | .assign name value =>
        have hn2 : ∀ n, tName n ∉ name :: exprNames value := hn
        have hname : ∀ n, name ≠ tName n := by
          intro n hc
          exact hn2 n (by rw [← hc]; exact List.mem_cons_self _ _)
        have hnval : ∀ n, tName n ∉ exprNames value := by
          intro n hc
          exact hn2 n (List.mem_cons_of_mem _ hc)
        obtain ⟨inv1, mono1, res1⟩ := genExpr_good value st hnval hInv
        have step := TempInv_emit_plain (genExpr value st).2
          ⟨"MOV", (genExpr value st).1, "", name⟩ inv1 hname res1 (ResOK_empty _)
        exact ⟨step, mono1⟩
      | .ret none =>
        have step := TempInv_emit_plain st ⟨"RET", "", "", ""⟩ hInv empty_ne_tName
          (ResOK_empty _) (ResOK_empty _)
        exact ⟨step, le_refl _⟩
      | .ret (some v) =>
        have hnval : ∀ n, tName n ∉ exprNames v := hn
        obtain ⟨inv1, mono1, res1⟩ := genExpr_good v st hnval hInv
        have step := TempInv_emit_plain (genExpr v st).2
          ⟨"RET", (genExpr v st).1, "", ""⟩ inv1 empty_ne_tName res1 (ResOK_empty _)
        exact ⟨step, mono1⟩
      | .block stmts => exact ihL stmts st hn hInv
      | .ifStmt cond thenB none =>
        have hn2 : ∀ n, tName n ∉ exprNames cond ++ stmtNames f thenB ++ ([] : List String) := hn
        have hncond : ∀ n, tName n ∉ exprNames cond := by
          intro n hc
          exact hn2 n (by simp [hc])
        have hnthen : ∀ n, tName n ∉ stmtNames f thenB := by
          intro n hc
          exact hn2 n (by simp [hc])
        obtain ⟨inv1, mono1, res1⟩ := genExpr_good cond st hncond hInv
        have inv2 := TempInv_emit_plain (genExpr cond st).2
          ⟨"IF_FALSE", (genExpr cond st).1, "", "L1"⟩ inv1 L1_ne_tName res1
          (ResOK_empty _)
        obtain ⟨inv3, mono3⟩ := ihS thenB
          (emit (genExpr cond st).2 ⟨"IF_FALSE", (genExpr cond st).1, "", "L1"⟩)
          hnthen inv2
        have inv4 := TempInv_emit_plain _ ⟨"GOTO", "", "", "L2"⟩ inv3 L2_ne_tName
          (ResOK_empty _) (ResOK_empty _)
        have inv5 := TempInv_emit_plain _ ⟨"LABEL", "", "", "L1"⟩ inv4 L1_ne_tName
          (ResOK_empty _) (ResOK_empty _)
        have inv7 := TempInv_emit_plain _ ⟨"LABEL", "", "", "L2"⟩ inv5 L2_ne_tName
          (ResOK_empty _) (ResOK_empty _)
        exact ⟨inv7, le_trans mono1 mono3⟩
      | .ifStmt cond thenB (some els) =>
        have hn2 : ∀ n, tName n ∉ exprNames cond ++ stmtNames f thenB ++ stmtNames f els := hn
        have hncond : ∀ n, tName n ∉ exprNames cond := by
          intro n hc
          exact hn2 n (by simp [hc])
        have hnthen : ∀ n, tName n ∉ stmtNames f thenB := by
          intro n hc
          exact hn2 n (by simp [hc])
        have hnelse : ∀ n, tName n ∉ stmtNames f els := by
          intro n hc
          exact hn2 n (by simp [hc])
        obtain ⟨inv1, mono1, res1⟩ := genExpr_good cond st hncond hInv
        have inv2 := TempInv_emit_plain (genExpr cond st).2
          ⟨"IF_FALSE", (genExpr cond st).1, "", "L1"⟩ inv1 L1_ne_tName res1
          (ResOK_empty _)
        obtain ⟨inv3, mono3⟩ := ihS thenB
          (emit (genExpr cond st).2 ⟨"IF_FALSE", (genExpr cond st).1, "", "L1"⟩)
          hnthen inv2
        have inv4 := TempInv_emit_plain _ ⟨"GOTO", "", "", "L2"⟩ inv3 L2_ne_tName
          (ResOK_empty _) (ResOK_empty _)
        have inv5 := TempInv_emit_plain _ ⟨"LABEL", "", "", "L1"⟩ inv4 L1_ne_tName
          (ResOK_empty _) (ResOK_empty _)
        obtain ⟨inv6, mono6⟩ := ihS els _ hnelse inv5
        have inv7 := TempInv_emit_plain _ ⟨"LABEL", "", "", "L2"⟩ inv6 L2_ne_tName
          (ResOK_empty _) (ResOK_empty _)
        exact ⟨inv7, le_trans mono1 (le_trans mono3 mono6)⟩
      | .funcDecl rt name ps body =>
        have hn2 : ∀ n, tName n ∉ name :: stmtNamesList f body := hn
        have hname : ∀ n, name ≠ tName n := by
          intro n hc
          exact hn2 n (by rw [← hc]; exact List.mem_cons_self _ _)
        have hnbody : ∀ n, tName n ∉ stmtNamesList f body := by
          intro n hc
          exact hn2 n (List.mem_cons_of_mem _ hc)
        have inv1 := TempInv_emit_plain st ⟨"LABEL", "", "", name⟩ hInv hname
          (ResOK_empty _) (ResOK_empty _)
        obtain ⟨inv2, mono2⟩ := ihB body (emit st ⟨"LABEL", "", "", name⟩) hnbody inv1
        have hgoal : genStmt (Nat.succ f) (.funcDecl rt name ps body) st =
            (match (genBody f body (emit st ⟨"LABEL", "", "", name⟩)).code.getLast? with
             | none => emit (genBody f body (emit st ⟨"LABEL", "", "", name⟩))
                 ⟨"RET", "", "", ""⟩
             | some ins =>
               if ins.op ≠ "RET" then
                 emit (genBody f body (emit st ⟨"LABEL", "", "", name⟩)) ⟨"RET", "", "", ""⟩
               else genBody f body (emit st ⟨"LABEL", "", "", name⟩)) := rfl
        rw [hgoal]
        cases hlast : (genBody f body (emit st ⟨"LABEL", "", "", name⟩)).code.getLast? with
        | none =>
          have inv3 := TempInv_emit_plain _ ⟨"RET", "", "", ""⟩ inv2 empty_ne_tName
            (ResOK_empty _) (ResOK_empty _)
          exact ⟨inv3, mono2⟩
        | some ins =>
          simp only
          by_cases hret : ins.op ≠ "RET"
          · rw [if_pos hret]
            have inv3 := TempInv_emit_plain _ ⟨"RET", "", "", ""⟩ inv2 empty_ne_tName
              (ResOK_empty _) (ResOK_empty _)
            exact ⟨inv3, mono2⟩
          · rw [if_neg hret]
            exact ⟨inv2, mono2⟩
    refine ⟨hStmt, ?_, ?_⟩
    · intro l st hn hInv
      match l with
      | [] => exact ⟨hInv, le_refl _⟩
      | s :: rest =>
        have hn2 : ∀ n, tName n ∉ stmtNames f s ++ stmtNamesList f rest := hn
        have hns : ∀ n, tName n ∉ stmtNames f s := by
          intro n hc
          exact hn2 n (by simp [hc])
        have hnrest : ∀ n, tName n ∉ stmtNamesList f rest := by
          intro n hc
          exact hn2 n (by simp [hc])
        obtain ⟨inv1, mono1⟩ := ihS s st hns hInv
        obtain ⟨inv2, mono2⟩ := ihL rest (genStmt f s st) hnrest inv1
        exact ⟨inv2, le_trans mono1 mono2⟩
    · intro l st hn hInv
      match l with
      | [] => exact ⟨hInv, le_refl _⟩
      | s :: rest =>
        have hn2 : ∀ n, tName n ∉ stmtNames f s ++ stmtNamesList f rest := hn
        have hns : ∀ n, tName n ∉ stmtNames f s := by
          intro n hc
          exact hn2 n (by simp [hc])
        have hnrest : ∀ n, tName n ∉ stmtNamesList f rest := by
          intro n hc
          exact hn2 n (by simp [hc])
        obtain ⟨inv1, mono1⟩ := ihS s st hns hInv
        have hgoal : genBody (Nat.succ f) (s :: rest) st =
            (match (genStmt f s st).code.getLast? with
             | some ins => if ins.op = "RET" then genStmt f s st
                 else genBody f rest (genStmt f s st)
             | none => genBody f rest (genStmt f s st)) := rfl
        rw [hgoal]
        cases hlast : (genStmt f s st).code.getLast? with
        | none =>
          obtain ⟨inv2, mono2⟩ := ihB rest (genStmt f s st) hnrest inv1
          exact ⟨inv2, le_trans mono1 mono2⟩
        | some ins =>
          simp only
          by_cases hret : ins.op = "RET"
          · rw [if_pos hret]
            exact ⟨inv1, mono1⟩
          · rw [if_neg hret]
            obtain ⟨inv2, mono2⟩ := ihB rest (genStmt f s st) hnrest inv1
            exact ⟨inv2, le_trans mono1 mono2⟩


/-- The generator invariant implies the claimed temporary discipline. -/
theorem TempInv_discipline : ∀ (code : List TAC) (cnt : Nat),
    TempInv code cnt → TempDiscipline code := by
  intro code cnt hInv n i hi hr
  obtain ⟨A, B, C⟩ := hInv
  refine ⟨(A i hi n hr).2, ?_, ?_⟩
  · intro j hj hrj
    exact B n j i hj hi hrj hr
  · intro j hj hle
    constructor
    · intro hc
      obtain ⟨i2, hi2, hlt, hres⟩ := C n j hj (Or.inl hc)
      have := B n i2 i hi2 hi hres hr
      omega
    · intro hc
      obtain ⟨i2, hi2, hlt, hres⟩ := C n j hj (Or.inr hc)
      have := B n i2 i hi2 hi hres hr
      omega

/-- The initial generator state satisfies the invariant. -/
theorem TempInv_nil : TempInv ([] : List TAC) 0 := by
  refine ⟨?_, ?_, ?_⟩
  · intro i hi
    exact absurd hi (by simp)
  · intro n i j hi
    exact absurd hi (by simp)
  · intro n j hj
    exact absurd hj (by simp)

/-- Claim C8 (amended): in every instruction list produced by the IR
generator from an AST none of whose literal spellings, variable names or
function names is itself of the form `tN`, each temporary occurs as the
`result` of exactly one instruction, that instruction is a
binary-operator instruction (its opcode is none of `MOV`, `LABEL`,
`GOTO`, `IF_FALSE`, `RET`), and no instruction up to and including the
defining one mentions the temporary as `arg1` or `arg2`. -/
theorem c8_theorem :
    ∀ ast : Stmt, (∀ n, tName n ∉ astNames ast) → TempDiscipline (genCode ast) := by
  intro ast hn
  match ast with
  | .block l =>
    exact TempInv_discipline _ _
      ((genStmt_good (stmtSize (.block l))).2.1 l ⟨[], 0⟩ hn TempInv_nil).1
  | .varDecl a b c =>
    exact TempInv_discipline _ _
      ((genStmt_good (stmtSize (.varDecl a b c))).1 (.varDecl a b c) ⟨[], 0⟩ hn TempInv_nil).1
  | .assign a b =>
    exact TempInv_discipline _ _
      ((genStmt_good (stmtSize (.assign a b))).1 (.assign a b) ⟨[], 0⟩ hn TempInv_nil).1
  | .ifStmt a b c =>
    exact TempInv_discipline _ _
      ((genStmt_good (stmtSize (.ifStmt a b c))).1 (.ifStmt a b c) ⟨[], 0⟩ hn TempInv_nil).1
  | .ret a =>
    exact TempInv_discipline _ _
      ((genStmt_good (stmtSize (.ret a))).1 (.ret a) ⟨[], 0⟩ hn TempInv_nil).1
  | .funcDecl a b c d =>
    exact TempInv_discipline _ _
      ((genStmt_good (stmtSize (.funcDecl a b c d))).1 (.funcDecl a b c d) ⟨[], 0⟩
        hn TempInv_nil).1

/-- Claim C8: the unrestricted claim is false — the well-formed input
`int t0 = 1 + 2;` declares a variable named like the first temporary, so
`t0` is also the `result` of the emitted `MOV`, which is not a
binary-operator instruction. -/
theorem c8_counterexample :
    genCode astC8 = [⟨"+", "1", "2", "t0"⟩, ⟨"MOV", "t0", "", "t0"⟩] ∧
    ¬ TempDiscipline [⟨"+", "1", "2", "t0"⟩, ⟨"MOV", "t0", "", "t0"⟩] := by
  refine ⟨by decide, ?_⟩
  intro h
  have h1 := h 0 1 (by decide) (by decide)
  exact h1.1 (by decide)

/-- Witness for C8 (amended): the lowering of `int x = 1 + 2;` obeys the
temporary discipline. -/
theorem c8_witness :
    TempDiscipline (genCode (.varDecl "int" "x" (some (.bin (.lit "1") .add (.lit "2"))))) := by
  apply c8_theorem
  intro n hc
  have he : astNames (.varDecl "int" "x" (some (.bin (.lit "1") .add (.lit "2")))) =
      ["x", "1", "2"] := by decide
  rw [he] at hc
  simp only [List.mem_cons, List.mem_singleton, List.not_mem_nil, or_false] at hc
  rcases hc with h | h | h
  · exact ne_tName_of_head "x" (by decide) n h.symm
  · exact ne_tName_of_head "1" (by decide) n h.symm
  · exact ne_tName_of_head "2" (by decide) n h.symm



/-- `String.push` appends one character to the underlying data. -/
theorem push_data (s : String) (c : Char) : (s.push c).data = s.data ++ [c] := rfl

/-- Two characters on which a boolean character class disagrees differ. -/
theorem ne_of_classes {P : Char → Bool} {a b : Char} (h1 : P a = true)
    (h2 : P b = false) : a ≠ b := by
  intro he
  subst he
  rw [h1] at h2
  cases h2

/-- The six characters accepted by `isSpaceC`. -/
theorem spaceC_cases (ch : Char) (h : isSpaceC ch = true) :
    ch = ' ' ∨ ch = '\t' ∨ ch = '\n' ∨ ch = Char.ofNat 11 ∨ ch = Char.ofNat 12 ∨
      ch = '\r' := by
  have h2 := h
  simp [isSpaceC] at h2
  tauto

/-- A decimal digit is not whitespace. -/
theorem not_space_of_digit (ch : Char) (h : isDigitC ch = true) :
    isSpaceC ch = false := by
  cases hs : isSpaceC ch
  · rfl
  · rcases spaceC_cases ch hs with h1 | h1 | h1 | h1 | h1 | h1 <;>
      (subst h1; exact absurd h (by decide))

/-- A letter is not whitespace. -/
theorem not_space_of_alpha (ch : Char) (h : isAlphaC ch = true) :
    isSpaceC ch = false := by
  cases hs : isSpaceC ch
  · rfl
  · rcases spaceC_cases ch hs with h1 | h1 | h1 | h1 | h1 | h1 <;>
      (subst h1; exact absurd h (by decide))

/-- A letter is not a decimal digit. -/
theorem not_digit_of_alpha (ch : Char) (h : isAlphaC ch = true) :
    isDigitC ch = false := by
  cases hd : isDigitC ch
  · rfl
  · exfalso
    simp [isAlphaC] at h
    simp [isDigitC] at hd
    rcases h with ⟨h1, _⟩ | ⟨h1, _⟩
    · exact absurd (le_trans h1 hd.2) (by decide)
    · exact absurd (le_trans h1 hd.2) (by decide)

/-- `skipWS` does not move past a non-whitespace character. -/
theorem skipWS_id (ch : Char) (r : List Char) (l c : Nat)
    (h : isSpaceC ch = false) : skipWS (ch :: r) l c = (ch :: r, l, c) := by
  rw [skipWS]
  simp [h]

/-- `skipComment` is the identity unless the buffer starts with `/`. -/
theorem skipCommentM_id (ch : Char) (r : List Char) (l c : Nat)
    (h : ch ≠ '/') : skipCommentM (ch :: r) l c = (ch :: r, l, c) := by
  rw [skipCommentM.eq_def]
  split
  · rename_i heq
    simp at heq
    exact absurd heq.1 h
  · rename_i heq
    simp at heq
    exact absurd heq.1 h
  · rfl


/-- Re-scanning the characters `Lexer::number` consumed reproduces the
same lexeme (relative to any accumulator), consumes the whole input, and
computes the same floating-point flag. -/
theorem numScan_rt (cs : List Char) (l c : Nat) (isF : Bool) (acc : String) :
    ∃ t, (numScan cs l c isF acc).1.lex.data = acc.data ++ t ∧
      (isDigitC (curc cs) = true → t.head? = some (curc cs)) ∧
      (∀ l2 c2, (numScan t l2 c2 isF acc).1.lex = (numScan cs l c isF acc).1.lex ∧
        (numScan t l2 c2 isF acc).1.rest = [] ∧
        (numScan t l2 c2 isF acc).2 = (numScan cs l c isF acc).2) := by
  induction cs, l, c, isF, acc using numScan.induct with
  | case1 l c isF acc =>
    refine ⟨[], by simp [numScan], ?_, ?_⟩
    · intro h
      exact absurd h (by decide)
    · intro l2 c2
      exact ⟨rfl, rfl, rfl⟩
  | case2 ch rest l c isF acc hdg ih =>
    obtain ⟨t2, hpre, _, hres⟩ := ih
    refine ⟨ch :: t2, ?_, ?_, ?_⟩
    · simp only [numScan, if_pos hdg]
      rw [hpre, push_data]
      simp
    · intro _
      rfl
    · intro l2 c2
      simp only [numScan, if_pos hdg]
      exact hres l2 (c2 + 1)
  | case3 rest l c acc hdg =>
    have he : numScan ('.' :: rest) l c true acc = (⟨acc, '.' :: rest, l, c⟩, true) := rfl
    refine ⟨[], by rw [he]; simp, ?_, ?_⟩
    · intro h
      rw [show curc ('.' :: rest) = '.' from rfl] at h
      exact absurd h (by decide)
    · intro l2 c2
      rw [he]
      exact ⟨rfl, rfl, rfl⟩
  | case4 rest l c isF acc hF hdg ih =>
    have hFf : isF = false := by simpa using hF
    subst hFf
    obtain ⟨t2, hpre, _, hres⟩ := ih
    refine ⟨'.' :: t2, ?_, ?_, ?_⟩
    · rw [show numScan ('.' :: rest) l c false acc
          = numScan rest l (c + 1) true (acc.push '.') from rfl]
      rw [hpre, push_data]
      simp
    · intro h
      rw [show curc ('.' :: rest) = '.' from rfl] at h
      exact absurd h (by decide)
    · intro l2 c2
      rw [show numScan ('.' :: t2) l2 c2 false acc
            = numScan t2 l2 (c2 + 1) true (acc.push '.') from rfl,
          show numScan ('.' :: rest) l c false acc
            = numScan rest l (c + 1) true (acc.push '.') from rfl]
      exact hres l2 (c2 + 1)
  | case5 ch rest l c isF acc hdg hdot =>
    have he : numScan (ch :: rest) l c isF acc = (⟨acc, ch :: rest, l, c⟩, isF) := by
      rw [numScan, if_neg hdg, if_neg hdot]
    refine ⟨[], by rw [he]; simp, ?_, ?_⟩
    · intro h
      exact absurd h hdg
    · intro l2 c2
      rw [he]
      exact ⟨rfl, rfl, rfl⟩

/-- The catch-all clause of `identScan`, usable whenever the tail does
not begin with `::`. -/
theorem identScan_cons (ch : Char) (rest : List Char) (l c : Nat) (acc : String)
    (hne : ∀ rest2 : List Char, rest = ':' :: ':' :: rest2 → False) :
    identScan (ch :: rest) l c acc =
      if isAlnumC ch || ch = '_' then identScan rest l (c + 1) (acc.push ch)
      else ⟨acc, ch :: rest, l, c⟩ := by
  rw [identScan.eq_def]
  split
  · rename_i heq
    simp at heq
  · rename_i h1 h2 h3 heq
    injection heq with h4 h5
    exact absurd h5 (by intro h6; exact hne h3 h6)
  · rename_i hne2 heq
    injection heq with h4 h5
    subst h4
    subst h5
    rfl

/-- Re-scanning the characters the identifier loop consumed reproduces
the same lexeme relative to any accumulator and consumes everything; the
first consumed character (when the loop consumes at all) is the entry
character, and any first character of the consumed block is an
identifier character. -/
theorem identScan_rt (cs : List Char) (l c : Nat) (acc : String) :
    ∃ t, (identScan cs l c acc).lex.data = acc.data ++ t ∧
      (∀ c0 t0, t = c0 :: t0 → (isAlnumC c0 || decide (c0 = '_')) = true) ∧
      ((isAlnumC (curc cs) || decide (curc cs = '_')) = true →
        t.head? = some (curc cs)) ∧
      (∀ l2 c2, (identScan t l2 c2 acc).lex = (identScan cs l c acc).lex ∧
        (identScan t l2 c2 acc).rest = []) := by
  induction cs, l, c, acc using identScan.induct with
  | case1 l c acc =>
    refine ⟨[], by simp [identScan], ?_, ?_, ?_⟩
    · intro c0 t0 h
      cases h
    · intro h
      rw [show curc [] = nullChar from rfl] at h
      exact absurd h (by decide)
    · intro l2 c2
      exact ⟨rfl, rfl⟩
  | case2 ch rest2 l c acc hcond ih =>
    obtain ⟨t2, hpre, helem, _, hres⟩ := ih
    have he : ∀ (r : List Char) (l0 c0 : Nat),
        identScan (ch :: ':' :: ':' :: r) l0 c0 acc
          = identScan r l0 (c0 + 3) (acc.push ch ++ "::") := by
      intro r l0 c0
      rw [identScan]
      rw [if_pos hcond]
    refine ⟨ch :: ':' :: ':' :: t2, ?_, ?_, ?_, ?_⟩
    · rw [he, hpre]
      rw [show (acc.push ch ++ "::").data = acc.data ++ [ch, ':', ':'] by
        rw [show (acc.push ch ++ "::").data = (acc.push ch).data ++ [':', ':'] from rfl,
            push_data]; simp]
      simp
    · intro c0 t0 heq
      injection heq with h1 h2
      subst h1
      exact hcond
    · intro _
      rfl
    · intro l2 c2
      rw [he, he]
      exact hres l2 (c2 + 3)
  | case3 ch rest2 l c acc hcond =>
    have he : identScan (ch :: ':' :: ':' :: rest2) l c acc
        = ⟨acc, ch :: ':' :: ':' :: rest2, l, c⟩ := by
      rw [identScan]
      rw [if_neg hcond]
    refine ⟨[], by rw [he]; simp, ?_, ?_, ?_⟩
    · intro c0 t0 h
      cases h
    · intro h
      rw [show curc (ch :: ':' :: ':' :: rest2) = ch from rfl] at h
      exact absurd h hcond
    · intro l2 c2
      rw [he]
      exact ⟨rfl, rfl⟩
  | case4 ch rest l c acc hne hcond ih =>
    obtain ⟨t2, hpre, helem, _, hres⟩ := ih
    refine ⟨ch :: t2, ?_, ?_, ?_, ?_⟩
    · rw [identScan_cons ch rest l c acc hne, if_pos hcond, hpre, push_data]
      simp
    · intro c0 t0 heq
      injection heq with h1 h2
      subst h1
      exact hcond
    · intro _
      rfl
    · intro l2 c2
      have hne2 : ∀ r2 : List Char, t2 = ':' :: ':' :: r2 → False := by
        intro r2 hr
        exact absurd (helem ':' (':' :: r2) hr) (by decide)
      rw [identScan_cons ch t2 l2 c2 acc hne2, if_pos hcond,
          identScan_cons ch rest l c acc hne, if_pos hcond]
      exact hres l2 (c2 + 1)
  | case5 ch rest l c acc hne hcond =>
    have he : identScan (ch :: rest) l c acc = ⟨acc, ch :: rest, l, c⟩ := by
      rw [identScan_cons ch rest l c acc hne, if_neg hcond]
    refine ⟨[], by rw [he]; simp, ?_, ?_, ?_⟩
    · intro c0 t0 h
      cases h
    · intro h
      rw [show curc (ch :: rest) = ch from rfl] at h
      exact absurd h hcond
    · intro l2 c2
      rw [he]
      exact ⟨rfl, rfl⟩

/-- The catch-all clause of `strLoop`, usable whenever the head is not a
closing quote and does not start an escaped quote. -/
theorem strLoop_cons (ch : Char) (rest : List Char) (l c : Nat) (acc : String)
    (h1 : ch = '"' → False)
    (h2 : ∀ rest2 : List Char, ch = '\\' → rest = '"' :: rest2 → False) :
    strLoop (ch :: rest) l c acc =
      if ch = nullChar then ⟨acc.push nullChar, rest, l, c + 1⟩
      else if ch = '\n' then strLoop rest (l + 1) 1 (acc.push ch)
      else strLoop rest l (c + 1) (acc.push ch) := by
  rw [strLoop.eq_def]
  split
  · rename_i heq
    simp at heq
  · rename_i r0 heq
    injection heq with h3 h4
    exact absurd h3 h1
  · rename_i r0 heq
    injection heq with h3 h4
    exact absurd h4 (by intro h5; exact h2 r0 h3 h5)
  · rename_i c0 r0 hq hbq heq
    injection heq with h3 h4
    subst h3
    subst h4
    rfl

/-- Re-scanning the characters the string-literal loop consumed (plus
the terminator it appended) reproduces the same lexeme relative to any
accumulator and consumes the whole input. -/
theorem strLoop_rt (cs : List Char) (l c : Nat) (acc : String) :
    ∃ t, (strLoop cs l c acc).lex.data = acc.data ++ t ∧
      t.head? = some (curc cs) ∧
      (∀ l2 c2, (strLoop t l2 c2 acc).lex = (strLoop cs l c acc).lex ∧
        (strLoop t l2 c2 acc).rest = []) := by
  induction cs, l, c, acc using strLoop.induct with
  | case1 l c acc =>
    refine ⟨[nullChar], by rw [show strLoop [] l c acc = ⟨acc.push nullChar, [], l, c⟩ from rfl,
        push_data], rfl, ?_⟩
    intro l2 c2
    rw [strLoop_cons nullChar [] l2 c2 acc (by decide) (fun r2 hc _ => absurd hc (by decide)),
        if_pos rfl]
    exact ⟨rfl, rfl⟩
  | case2 rest l c acc =>
    refine ⟨['"'], by rw [show strLoop ('"' :: rest) l c acc = ⟨acc.push '"', rest, l, c + 1⟩
        from rfl, push_data], rfl, ?_⟩
    intro l2 c2
    rw [show strLoop ['"'] l2 c2 acc = ⟨acc.push '"', [], l2, c2 + 1⟩ from rfl,
        show strLoop ('"' :: rest) l c acc = ⟨acc.push '"', rest, l, c + 1⟩ from rfl]
    exact ⟨rfl, rfl⟩
  | case3 rest2 l c acc ih =>
    obtain ⟨t2, hpre, hhd, hres⟩ := ih
    have he : ∀ (r : List Char) (l0 c0 : Nat),
        strLoop ('\\' :: '"' :: r) l0 c0 acc
          = strLoop r l0 (c0 + 2) ((acc.push '\\').push '"') := fun _ _ _ => rfl
    refine ⟨'\\' :: '"' :: t2, ?_, rfl, ?_⟩
    · rw [he, hpre, push_data, push_data]
      simp
    · intro l2 c2
      rw [he, he]
      exact hres l2 (c2 + 2)
  | case4 rest l c acc hq hbq =>
    have he : strLoop (nullChar :: rest) l c acc
        = ⟨acc.push nullChar, rest, l, c + 1⟩ := rfl
    refine ⟨[nullChar], by rw [he, push_data], rfl, ?_⟩
    intro l2 c2
    rw [strLoop_cons nullChar [] l2 c2 acc (by decide) (fun r2 hc _ => absurd hc (by decide)),
        if_pos rfl, he]
    exact ⟨rfl, rfl⟩
  | case5 rest l c acc hq hbq hnull ih =>
    obtain ⟨t2, hpre, hhd, hres⟩ := ih
    have he : ∀ (r : List Char) (l0 c0 : Nat),
        strLoop ('\n' :: r) l0 c0 acc = strLoop r (l0 + 1) 1 (acc.push '\n') :=
      fun _ _ _ => rfl
    refine ⟨'\n' :: t2, ?_, rfl, ?_⟩
    · rw [he, hpre, push_data]
      simp
    · intro l2 c2
      rw [he, he]
      exact hres (l2 + 1) 1
  | case6 ch rest l c acc hq hbq hnull hnl ih =>
    obtain ⟨t2, hpre, hhd, hres⟩ := ih
    have he : strLoop (ch :: rest) l c acc = strLoop rest l (c + 1) (acc.push ch) := by
      rw [strLoop_cons ch rest l c acc hq hbq, if_neg hnull, if_neg hnl]
    refine ⟨ch :: t2, ?_, rfl, ?_⟩
    · rw [he, hpre, push_data]
      simp
    · intro l2 c2
      have hbq2 : ∀ r2 : List Char, ch = '\\' → t2 = '"' :: r2 → False := by
        intro r2 hc ht
        rw [ht] at hhd
        cases hrest : rest with
        | nil =>
          rw [hrest] at hhd
          rw [show curc ([] : List Char) = nullChar from rfl] at hhd
          injection hhd with h5
          exact absurd h5 (by decide)
        | cons r0 rr =>
          rw [hrest] at hhd
          rw [show curc (r0 :: rr) = r0 from rfl] at hhd
          injection hhd with h5
          exact hbq rr hc (by rw [hrest, ← h5])
      have he2 : strLoop (ch :: t2) l2 c2 acc = strLoop t2 l2 (c2 + 1) (acc.push ch) := by
        rw [strLoop_cons ch t2 l2 c2 acc hq hbq2, if_neg hnull, if_neg hnl]
      rw [he2, he]
      exact hres l2 (c2 + 1)

/-- A successful `Lexer::characterLiteral` lexeme is always an opening
quote, one middle character, and a closing quote. -/
theorem charRest_shape (rest : List Char) (l c : Nat) (r : ScanOut)
    (h : charRest rest l c = .ok r) : ∃ m, r.lex = ("'".push m).push '\'' := by
  rw [charRest] at h
  simp only at h
  split at h
  · split at h
    · injection h with h2
      subst h2
      exact ⟨'\\', rfl⟩
    · cases h
  · split at h
    · injection h with h2
      subst h2
      exact ⟨curc rest, rfl⟩
    · cases h

/-- Scanning the tail of a re-fed three-character literal lexeme whose
middle character is not a backslash succeeds and consumes everything. -/
theorem charRest_rescan (m : Char) (l c : Nat) (hm : m ≠ '\\') :
    ∃ l2 c2, charRest [m, '\''] l c = .ok ⟨("'".push m).push '\'', [], l2, c2⟩ := by
  rw [charRest]
  rw [show curc [m, '\''] = m from rfl]
  rw [if_neg (by simp [hm])]
  by_cases hnl : m = '\n'
  · subst hnl
    exact ⟨l + 1, 2, rfl⟩
  · refine ⟨l, c + 2, ?_⟩
    rw [show advT ([m, '\''], l, c) = (['\''], l, c + 1) by rw [advT, if_neg hnl]]
    rfl

/-- If `nextToken` on exactly the characters of `s` produces a token
carrying `s` itself with nothing left over, then `tokenize` on `s`
yields that single token: the lexeme round-trips. -/
theorem RT_of_nextToken (s : String) (d : Char) (t : List Char) (k : TokenType)
    (l2 : Nat) (st2 : LexState) (hd : s.data = d :: t)
    (hnt : nextToken ⟨s.data, 1, 1⟩ = .ok (⟨k, s, l2, 1⟩, st2))
    (hrest : st2.chars = []) (hk1 : k ≠ .EndOfFile) (hk2 : k ≠ .Unknown) : RT s := by
  refine ⟨k, l2, ?_⟩
  have hlen : s.length = t.length + 1 := by
    rw [show s.length = s.data.length from rfl, hd]
    rfl
  rw [tokenize, hlen]
  rw [hd] at hnt ⊢
  obtain ⟨cs2, a2, b2⟩ := st2
  simp only at hrest
  subst hrest
  simp only [tokenizeLoop, hnt]
  rw [if_neg (by simpa using hk1)]
  rw [if_neg (by simpa using hk2)]

/-- `Lexer::nextToken` on a buffer that starts with a non-whitespace,
non-slash character: both skipping phases are the identity and the
dispatch acts on the buffer directly. -/
theorem nextToken_skip (d : Char) (t : List Char) (l c : Nat)
    (hsp : isSpaceC d = false) (hsl : d ≠ '/') :
    nextToken ⟨d :: t, l, c⟩ =
      (if isDigitC (curc (d :: t)) then
        .ok (⟨if (numScan (d :: t) l c false "").2 then .FloatingPointLiteral
              else .NumberLiteral, (numScan (d :: t) l c false "").1.lex,
              (numScan (d :: t) l c false "").1.line, c⟩,
             ⟨(numScan (d :: t) l c false "").1.rest, (numScan (d :: t) l c false "").1.line,
              (numScan (d :: t) l c false "").1.col⟩)
      else if isAlphaC (curc (d :: t)) || curc (d :: t) = '_' then
        .ok (⟨classifyIdent (identScan (d :: t) l c "").lex, (identScan (d :: t) l c "").lex,
              (identScan (d :: t) l c "").line, c⟩,
             ⟨(identScan (d :: t) l c "").rest, (identScan (d :: t) l c "").line,
              (identScan (d :: t) l c "").col⟩)
      else
        match d :: t with
        | '"' :: rest =>
          .ok (⟨.StringLiteral, (strLoop rest l (c + 1) (String.singleton '"')).lex,
                (strLoop rest l (c + 1) (String.singleton '"')).line, c⟩,
               ⟨(strLoop rest l (c + 1) (String.singleton '"')).rest,
                (strLoop rest l (c + 1) (String.singleton '"')).line,
                (strLoop rest l (c + 1) (String.singleton '"')).col⟩)
        | '\'' :: rest => do
          let r ← charRest rest l (c + 1)
          Except.ok (⟨.CharacterLiteral, r.lex, r.line, c⟩, ⟨r.rest, r.line, r.col⟩)
        | _ =>
          if isOpCharC (curc (d :: t)) then
            .ok (⟨.Operator, (opScan (d :: t) l c "").lex, (opScan (d :: t) l c "").line, c⟩,
                 ⟨(opScan (d :: t) l c "").rest, (opScan (d :: t) l c "").line,
                  (opScan (d :: t) l c "").col⟩)
          else if curc (d :: t) = ';' || curc (d :: t) = ',' || curc (d :: t) = '(' ||
                  curc (d :: t) = ')' || curc (d :: t) = '\x7b' || curc (d :: t) = '\x7d' then
            .ok (⟨.Separator, String.singleton (curc (d :: t)), l, c⟩,
                 ⟨(advT (d :: t, l, c)).1, (advT (d :: t, l, c)).2.1, (advT (d :: t, l, c)).2.2⟩)
          else if curc (d :: t) = nullChar then
            .ok (⟨.EndOfFile, "", l, c⟩, ⟨d :: t, l, c⟩)
          else
            .ok (⟨.Unknown, String.singleton (curc (d :: t)), (advT (d :: t, l, c)).2.1,
                  (advT (d :: t, l, c)).2.2⟩,
                 ⟨(advT (d :: t, l, c)).1, (advT (d :: t, l, c)).2.1,
                  (advT (d :: t, l, c)).2.2⟩)) := by
  rw [nextToken]
  simp only []
  rw [skipWS_id d t l c hsp]
  simp only []
  rw [skipCommentM_id d t l c hsl]

/-- The lexeme produced by the number scanner round-trips through the
lexer. -/
theorem RT_num (d : Char) (rest : List Char) (l c : Nat) (hd : isDigitC d = true) :
    RT (numScan (d :: rest) l c false "").1.lex := by
  obtain ⟨t, hpre, hhd, hres⟩ := numScan_rt (d :: rest) l c false ""
  rw [show curc (d :: rest) = d from rfl] at hhd
  have hhd2 := hhd hd
  have hsd : (numScan (d :: rest) l c false "").1.lex.data = t := by simpa using hpre
  cases ht : t with
  | nil =>
    rw [ht] at hhd2
    cases hhd2
  | cons d0 tt =>
    rw [ht] at hhd2
    injection hhd2 with hd0
    subst hd0
    rw [ht] at hsd hres
    have hd' : isDigitC (curc (d0 :: tt)) = true := hd
    have hnt : nextToken ⟨(numScan (d0 :: rest) l c false "").1.lex.data, 1, 1⟩ =
        .ok (⟨if (numScan (d0 :: rest) l c false "").2 then .FloatingPointLiteral
              else .NumberLiteral, (numScan (d0 :: rest) l c false "").1.lex,
              (numScan (d0 :: tt) 1 1 false "").1.line, 1⟩,
             ⟨[], (numScan (d0 :: tt) 1 1 false "").1.line,
              (numScan (d0 :: tt) 1 1 false "").1.col⟩) := by
      rw [hsd]
      rw [nextToken_skip d0 tt 1 1 (not_space_of_digit d0 hd) (ne_of_classes hd (by decide))]
      rw [if_pos hd']
      rw [(hres 1 1).1, (hres 1 1).2.1, (hres 1 1).2.2]
    refine RT_of_nextToken _ d0 tt _ _ _ hsd hnt rfl ?_ ?_
    · cases (numScan (d0 :: rest) l c false "").2 <;> decide
    · cases (numScan (d0 :: rest) l c false "").2 <;> decide

/-- The keyword classifier never yields the bookkeeping kinds. -/
theorem classifyIdent_ne (s : String) :
    classifyIdent s ≠ .EndOfFile ∧ classifyIdent s ≠ .Unknown ∧
      classifyIdent s ≠ .CharacterLiteral := by
  rw [classifyIdent]
  split
  · exact ⟨by decide, by decide, by decide⟩
  · split
    · exact ⟨by decide, by decide, by decide⟩
    · split
      · exact ⟨by decide, by decide, by decide⟩
      · exact ⟨by decide, by decide, by decide⟩

/-- The lexeme produced by the identifier scanner round-trips through
the lexer. -/
theorem RT_ident (d : Char) (rest : List Char) (l c : Nat)
    (ha : (isAlphaC d || decide (d = '_')) = true) :
    RT (identScan (d :: rest) l c "").lex := by
  have hcn : (isAlnumC d || decide (d = '_')) = true := by
    rcases Bool.or_eq_true_iff.mp ha with h | h
    · simp [isAlnumC, h]
    · simp [h]
  have hnd : isDigitC d = false := by
    rcases Bool.or_eq_true_iff.mp ha with h | h
    · exact not_digit_of_alpha d h
    · rw [show d = '_' by simpa using h]
      decide
  have hsp : isSpaceC d = false := by
    rcases Bool.or_eq_true_iff.mp ha with h | h
    · exact not_space_of_alpha d h
    · rw [show d = '_' by simpa using h]
      decide
  have hsl : d ≠ '/' := by
    rcases Bool.or_eq_true_iff.mp ha with h | h
    · exact ne_of_classes h (by decide)
    · rw [show d = '_' by simpa using h]
      decide
  obtain ⟨t, hpre, _, hhd, hres⟩ := identScan_rt (d :: rest) l c ""
  rw [show curc (d :: rest) = d from rfl] at hhd
  have hhd2 := hhd hcn
  have hsd : (identScan (d :: rest) l c "").lex.data = t := by simpa using hpre
  cases ht : t with
  | nil =>
    rw [ht] at hhd2
    cases hhd2
  | cons d0 tt =>
    rw [ht] at hhd2
    injection hhd2 with hd0
    subst hd0
    rw [ht] at hsd hres
    have hnd' : ¬isDigitC (curc (d0 :: tt)) = true := by
      rw [show curc (d0 :: tt) = d0 from rfl, hnd]
      simp
    have ha' : (isAlphaC (curc (d0 :: tt)) || decide (curc (d0 :: tt) = '_')) = true := ha
    have hnt : nextToken ⟨(identScan (d0 :: rest) l c "").lex.data, 1, 1⟩ =
        .ok (⟨classifyIdent (identScan (d0 :: rest) l c "").lex,
              (identScan (d0 :: rest) l c "").lex,
              (identScan (d0 :: tt) 1 1 "").line, 1⟩,
             ⟨[], (identScan (d0 :: tt) 1 1 "").line,
              (identScan (d0 :: tt) 1 1 "").col⟩) := by
      rw [hsd]
      rw [nextToken_skip d0 tt 1 1 hsp hsl]
      rw [if_neg hnd', if_pos ha']
      rw [(hres 1 1).1, (hres 1 1).2]
    exact RT_of_nextToken _ d0 tt _ _ _ hsd hnt rfl
      (classifyIdent_ne (identScan (d0 :: rest) l c "").lex).1
      (classifyIdent_ne (identScan (d0 :: rest) l c "").lex).2.1

/-- The lexeme produced by the string-literal scanner round-trips
through the lexer. -/
theorem RT_str (rest : List Char) (l c : Nat) :
    RT (strLoop rest l (c + 1) (String.singleton '"')).lex := by
  obtain ⟨t, hpre, _, hres⟩ := strLoop_rt rest l (c + 1) (String.singleton '"')
  have hsd : (strLoop rest l (c + 1) (String.singleton '"')).lex.data = '"' :: t := by
    rw [hpre]
    rfl
  have hcompute : nextToken ⟨'"' :: t, 1, 1⟩ =
      .ok (⟨.StringLiteral, (strLoop t 1 2 (String.singleton '"')).lex,
            (strLoop t 1 2 (String.singleton '"')).line, 1⟩,
           ⟨(strLoop t 1 2 (String.singleton '"')).rest,
            (strLoop t 1 2 (String.singleton '"')).line,
            (strLoop t 1 2 (String.singleton '"')).col⟩) := rfl
  have hnt : nextToken ⟨(strLoop rest l (c + 1) (String.singleton '"')).lex.data, 1, 1⟩ =
      .ok (⟨.StringLiteral, (strLoop rest l (c + 1) (String.singleton '"')).lex,
            (strLoop t 1 2 (String.singleton '"')).line, 1⟩,
           ⟨[], (strLoop t 1 2 (String.singleton '"')).line,
            (strLoop t 1 2 (String.singleton '"')).col⟩) := by
    rw [hsd, hcompute, (hres 1 2).1, (hres 1 2).2]
  exact RT_of_nextToken _ '"' t _ _ _ hsd hnt rfl (by decide) (by decide)

/-- A three-character literal lexeme whose middle character is not a
backslash round-trips through the lexer. -/
theorem RT_char (m : Char) (hm : m ≠ '\\') : RT (("'".push m).push '\'') := by
  obtain ⟨l2, c2, hcr⟩ := charRest_rescan m 1 2 hm
  have hsd : (("'".push m).push '\'').data = '\'' :: [m, '\''] := rfl
  have hcompute : nextToken ⟨'\'' :: [m, '\''], 1, 1⟩ =
      (do
        let r ← charRest [m, '\''] 1 2
        Except.ok (⟨.CharacterLiteral, r.lex, r.line, 1⟩, ⟨r.rest, r.line, r.col⟩)) := rfl
  have hnt : nextToken ⟨(("'".push m).push '\'').data, 1, 1⟩ =
      .ok (⟨.CharacterLiteral, ("'".push m).push '\'', l2, 1⟩, ⟨[], l2, c2⟩) := by
    rw [hsd, hcompute, hcr]
    rfl
  exact RT_of_nextToken _ '\'' [m, '\''] _ _ _ hsd hnt rfl (by decide) (by decide)

/-- Classification of the lexemes `nextToken` can emit: every token of a
literal or identifier kind carries a round-tripping lexeme, except that
a character literal carries a quote/middle/quote lexeme that round-trips
exactly when the middle character is not a backslash. -/
theorem nextToken_kinds (st : LexState) (tok : Token) (st2 : LexState)
    (hnt : nextToken st = .ok (tok, st2)) :
    ((tok.type = .NumberLiteral ∨ tok.type = .FloatingPointLiteral ∨
      tok.type = .StringLiteral ∨ tok.type = .Identifier) → RT tok.value) ∧
    (tok.type = .CharacterLiteral →
      ∃ m, tok.value = ("'".push m).push '\'' ∧ (m ≠ '\\' → RT tok.value)) := by
  rw [nextToken] at hnt
  simp only [] at hnt
  generalize hg : skipCommentM (skipWS st.chars st.line st.col).1
      (skipWS st.chars st.line st.col).2.1 (skipWS st.chars st.line st.col).2.2 = kk at hnt
  obtain ⟨cs, l, c⟩ := kk
  simp only [] at hnt
  split at hnt
  · -- number branch
    rename_i hdg
    injection hnt with h1
    injection h1 with htok hst2
    subst htok
    cases hcs : cs with
    | nil =>
      rw [hcs, show curc ([] : List Char) = nullChar from rfl] at hdg
      exact absurd hdg (by decide)
    | cons d rest =>
      rw [hcs] at hdg
      constructor
      · intro _
        exact RT_num d rest l c hdg
      · intro hch
        cases hb : (numScan (d :: rest) l c false "").2 <;> rw [hb] at hch <;> simp at hch
  · split at hnt
    · -- identifier branch
      rename_i hal
      injection hnt with h1
      injection h1 with htok hst2
      subst htok
      cases hcs : cs with
      | nil =>
        rw [hcs, show curc ([] : List Char) = nullChar from rfl] at hal
        exact absurd hal (by decide)
      | cons d rest =>
        rw [hcs] at hal
        constructor
        · intro _
          exact RT_ident d rest l c hal
        · intro hch
          exact absurd hch (classifyIdent_ne _).2.2
    · split at hnt
      · -- string branch
        rename_i cs0 rest hnd0 hna0
        injection hnt with h1
        injection h1 with htok hst2
        subst htok
        constructor
        · intro _
          exact RT_str rest l c
        · intro hch
          cases hch
      · -- character branch
        rename_i cs0 rest hnd0 hna0
        cases hcr : charRest rest l (c + 1) with
        | error e =>
          rw [hcr] at hnt
          exact absurd hnt (by simp [bind, Except.bind])
        | ok r =>
          rw [hcr] at hnt
          simp only [bind, Except.bind] at hnt
          injection hnt with h1
          injection h1 with htok hst2
          subst htok
          constructor
          · intro hk
            rcases hk with h | h | h | h <;> cases h
          · intro _
            obtain ⟨m, hm⟩ := charRest_shape rest l (c + 1) r hcr
            refine ⟨m, hm, ?_⟩
            intro hmne
            rw [show (⟨.CharacterLiteral, r.lex, r.line, c⟩ : Token).value = r.lex from rfl, hm]
            exact RT_char m hmne
      · split at hnt
        · -- operator branch
          injection hnt with h1
          injection h1 with htok hst2
          subst htok
          constructor
          · intro hk
            rcases hk with h | h | h | h <;> cases h
          · intro hch
            cases hch
        · split at hnt
          · -- separator branch
            injection hnt with h1
            injection h1 with htok hst2
            subst htok
            constructor
            · intro hk
              rcases hk with h | h | h | h <;> cases h
            · intro hch
              cases hch
          · split at hnt
            · -- end-of-file branch
              injection hnt with h1
              injection h1 with htok hst2
              subst htok
              constructor
              · intro hk
                rcases hk with h | h | h | h <;> cases h
              · intro hch
                cases hch
            · -- unknown branch
              injection hnt with h1
              injection h1 with htok hst2
              subst htok
              constructor
              · intro hk
                rcases hk with h | h | h | h <;> cases h
              · intro hch
                cases hch

/-- Every token emitted by the tokenize loop is the token component of
some successful `nextToken` call. -/
theorem tokenizeLoop_src (f : Nat) (st : LexState) (ts : List Token)
    (h : tokenizeLoop f st = .ok ts) :
    ∀ tok ∈ ts, ∃ st0 st1, nextToken st0 = .ok (tok, st1) := by
  induction f generalizing st ts with
  | zero => cases h
  | succ f ih =>
    rw [tokenizeLoop] at h
    split at h
    · injection h with h1
      subst h1
      intro tok htok
      cases htok
    · cases hnt : nextToken st with
      | error e =>
        rw [hnt] at h
        cases h
      | ok pr =>
        obtain ⟨tok0, st1⟩ := pr
        rw [hnt] at h
        simp only [] at h
        split at h
        · injection h with h1
          subst h1
          intro tok htok
          rcases List.mem_singleton.mp htok with h2
          subst h2
          exact ⟨st, st1, hnt⟩
        · cases hrec : tokenizeLoop f st1 with
          | error e =>
            rw [hrec] at h
            cases h
          | ok rest =>
            rw [hrec] at h
            injection h with h1
            subst h1
            intro tok htok
            split at htok
            · exact ih st1 rest hrec tok htok
            · rcases List.mem_cons.mp htok with h2 | h2
              · subst h2
                exact ⟨st, st1, hnt⟩
              · exact ih st1 rest hrec tok h2

/-- C9: every Literal or Variable expression built by `parsePrimary`
carries exactly the lexeme of the token it came from, and feeding such a
lexeme back to the lexer yields the same single token again for every
number, floating-point, string and identifier token; for character
literals this round-trip holds exactly when the middle character of the
three-character lexeme is not a backslash, and in the backslash case
(the lexeme of the source escape `'\''`) re-tokenizing fails with the
missing-closing-quote error, so the claimed round-trip for escaped
character literals is false. -/
theorem c9_theorem :
    (∀ (ts : List Token) (i : Nat) (e : Expr) (j : Nat),
      parsePrimary ts i = .ok (e, j) →
      (∀ v, e = .lit v →
        v = (currentToken ts i).value ∧
        ((currentToken ts i).type = .NumberLiteral ∨
         (currentToken ts i).type = .FloatingPointLiteral ∨
         (currentToken ts i).type = .StringLiteral ∨
         (currentToken ts i).type = .CharacterLiteral)) ∧
      (∀ v, e = .var v →
        v = (currentToken ts i).value ∧ (currentToken ts i).type = .Identifier)) ∧
    (∀ (src : String) (ts : List Token), tokenize src = .ok ts → ∀ tok ∈ ts,
      ((tok.type = .NumberLiteral ∨ tok.type = .FloatingPointLiteral ∨
        tok.type = .StringLiteral ∨ tok.type = .Identifier) → RT tok.value) ∧
      (tok.type = .CharacterLiteral →
        (tok.value.data.get? 1 ≠ some '\\' → RT tok.value) ∧
        (tok.value.data.get? 1 = some '\\' →
          tokenize tok.value =
            .error "Expected closing single quote for character literal"))) := by
  constructor
  · intro ts i e j h
    rw [parsePrimary] at h
    split at h
    · rename_i hcond
      injection h with h1
      injection h1 with he hj
      constructor
      · intro v hv
        rw [← he] at hv
        injection hv with hv2
        refine ⟨hv2.symm, ?_⟩
        have hc2 := hcond
        simp only [Bool.or_eq_true, decide_eq_true_eq] at hc2
        tauto
      · intro v hv
        rw [← he] at hv
        cases hv
    · split at h
      · rename_i hcond
        injection h with h1
        injection h1 with he hj
        constructor
        · intro v hv
          rw [← he] at hv
          cases hv
        · intro v hv
          rw [← he] at hv
          injection hv with hv2
          exact ⟨hv2.symm, hcond⟩
      · cases h
  · intro src ts hsrc tok htok
    rw [tokenize] at hsrc
    obtain ⟨st0, st1, hnt⟩ := tokenizeLoop_src _ _ ts hsrc tok htok
    have hk := nextToken_kinds st0 tok st1 hnt
    refine ⟨hk.1, ?_⟩
    intro hch
    obtain ⟨m, hm, hrt⟩ := hk.2 hch
    have hvd : tok.value.data = ['\'', m, '\''] := by
      rw [hm]
      rfl
    constructor
    · intro hne
      refine hrt ?_
      intro hmbs
      subst hmbs
      rw [hvd] at hne
      exact hne rfl
    · intro heq
      rw [hvd] at heq
      injection heq with h2
      rw [hm, h2]
      decide

/-- Claim C9 counterexample: compiling `char c = '\'';` succeeds and the
parsed initializer is the Literal expression whose pretty-printed form
is the three-character lexeme quote-backslash-quote; feeding that form
back to the lexer does not yield a first token with the same lexeme but
fails outright with the missing-closing-quote error. -/
theorem c9_counterexample :
    compile "char c = '\\'';" = .ok [⟨"MOV", "'\\'", "", "c"⟩] ∧
    tokenize "char c = '\\'';" = .ok tsC9 ∧
    parseStatement (parserFuel tsC9) tsC9 0 = .ok (astC9, 5) ∧
    parsePrimary tsC9 3 = .ok (.lit "'\\'", 4) ∧
    tokenize "'\\'" = .error "Expected closing single quote for character literal" := by
  refine ⟨?_, by decide, rfl, by decide, by decide⟩
  rw [compile_ok_of _ tsC9 astC9 5 [("c", "char")] (by decide) rfl (by decide)]
  decide

/-- Claim C9 witness: the identifier lexeme `x` extracted from the
tokens of `x y` round-trips, and the character-literal lexeme of
`char c = '\'';` re-tokenizes to the closing-quote error. -/
theorem c9_witness :
    (∃ k l, tokenize "x" = .ok [⟨k, "x", l, 1⟩]) ∧
    tokenize "'\\'" = .error "Expected closing single quote for character literal" ∧
    "'\\'" = (currentToken tsC9 3).value := by
  refine ⟨?_, ?_, ?_⟩
  · exact (c9_theorem.2 "x y" [⟨.Identifier, "x", 1, 1⟩, ⟨.Identifier, "y", 1, 3⟩]
      (by decide) ⟨.Identifier, "x", 1, 1⟩ (by decide)).1 (by decide)
  · exact ((c9_theorem.2 "char c = '\\'';" tsC9 (by decide)
      ⟨.CharacterLiteral, "'\\'", 1, 10⟩ (by decide)).2 (by decide)).2 (by decide)
  · exact ((c9_theorem.1 tsC9 3 (.lit "'\\'") 4 (by decide)).1 "'\\'" rfl).1

end TinyCPP
